import Mathlib

/-
Verification of the dispute-adjudication state-transition function of the
jam_protocol repository.

The definitions below are a shallow embedding of `src/main_script.py`
(functions `verify_signature`, `validate_votes`, `validate_culprits`,
`validate_faults`, `process_disputes`) and of the simpler reference variant
`src/run_dispute_case.py` (its own `process_disputes`, embedded in namespace
`RefCase`).  Python byte strings (hashes, public keys, signatures) are
modelled as `String`; Python lists as `List`; the per-core availability
slots (`rho`, each `None` or a nested report record) as
`List (Option AvailAssignment)`.  Python's `sorted`-comparison idiom
`xs != sorted(xs) or len(xs) != len(set(xs))` (used for the
sortedness/uniqueness pre-checks) is equivalent to the list being strictly
ascending, embedded as the boolean `strictAsc`; `sorted(set(xs))` becomes
`sortedDedup`.
-/

namespace Jam

/-- One validator entry of kappa / lambda: `{"ed25519": key}`. -/
structure Validator where
  ed25519 : String
deriving DecidableEq, Repr

/-- One vote of a verdict: `{"index": ..., "vote": ..., "signature": ...}`. -/
structure Vote where
  index : Nat
  vote : Bool
  signature : String
deriving DecidableEq, Repr

/-- One verdict: `{"target": ..., "age": ..., "votes": [...]}`. -/
structure Verdict where
  target : String
  age : Nat
  votes : List Vote
deriving DecidableEq, Repr

/-- One culprit entry: `{"key": ..., "target": ..., "signature": ...}`. -/
structure Culprit where
  key : String
  target : String
  signature : String
deriving DecidableEq, Repr

/-- One fault entry: `{"key": ..., "target": ..., "vote": ..., "signature": ...}`. -/
structure Fault where
  key : String
  target : String
  vote : Bool
  signature : String
deriving DecidableEq, Repr

/-- The judgement state psi: good / bad / wonky report hashes and offender keys. -/
structure Psi where
  good : List String
  bad : List String
  wonky : List String
  offenders : List String
deriving DecidableEq, Repr

/-- `report["package_spec"]` of a pending availability assignment. -/
structure PackageSpec where
  hash : String
deriving DecidableEq, Repr

/-- The `report` field of a pending availability assignment. -/
structure WorkReport where
  package_spec : PackageSpec
deriving DecidableEq, Repr

/-- One non-empty slot of rho. -/
structure AvailAssignment where
  report : WorkReport
deriving DecidableEq, Repr

/-- The pre and post state `{psi, rho, tau, kappa, lambda}`. -/
structure State where
  psi : Psi
  rho : List (Option AvailAssignment)
  tau : Nat
  kappa : List Validator
  lambda_ : List Validator
deriving DecidableEq, Repr

/-- The dispute batch `input_data["disputes"]`. -/
structure Disputes where
  verdicts : List Verdict
  culprits : List Culprit
  faults : List Fault
deriving DecidableEq, Repr

/-- The error codes returned by the validation stages. -/
inductive ErrCode where
  | verdicts_not_sorted_unique
  | culprits_not_sorted_unique
  | faults_not_sorted_unique
  | offender_already_reported
  | culprits_verdict_not_bad
  | fault_verdict_wrong
  | fault_verdict_not_good
  | faults_verdict_not_good
  | bad_guarantor_key
  | bad_auditor_key
  | bad_signature
  | already_judged
  | bad_judgement_age
  | judgements_not_sorted_unique
  | invalid_vote_index
  | not_enough_faults
  | not_enough_culprits
  | bad_vote_split
deriving DecidableEq, Repr

/-- The result value: `{"ok": {"offenders_mark": ...}}` or `{"err": code}`. -/
inductive Output where
  | ok (offenders_mark : List String)
  | err (e : ErrCode)
deriving DecidableEq, Repr

/-- Code-point comparison of characters; Python compares strings by code
points, which is exactly `Char.val` order. -/
def charLtB (a b : Char) : Bool := decide (a.val.toNat < b.val.toNat)

/-- Lexicographic comparison of character lists (Python string `<`):
a proper head run decides, a strict prefix is smaller. -/
def listLtB : List Char → List Char → Bool
  | [], [] => false
  | [], _ :: _ => true
  | _ :: _, [] => false
  | a :: as, b :: bs =>
    if charLtB a b then true
    else if charLtB b a then false
    else listLtB as bs

/-- Python's `a < b` on strings. -/
def strLtB (a b : String) : Bool := listLtB a.data b.data

/-- Python's `a <= b` on strings. -/
def strLeB (a b : String) : Bool := !(strLtB b a)

/-- Does the text start with the pattern? -/
def startsWithB : List Char → List Char → Bool
  | [], _ => true
  | _ :: _, [] => false
  | p :: ps, t :: ts => decide (p = t) && startsWithB ps ts

/-- Substring occurrence over character lists. -/
def containsSubB : List Char → List Char → Bool
  | [], pat => match pat with | [] => true | _ :: _ => false
  | t :: ts, pat => startsWithB pat (t :: ts) || containsSubB ts pat

/-- Substring test, embedding Python's `needle in haystack`. -/
def strContains (hay needle : String) : Bool :=
  containsSubB hay.data needle.data

/-- Strictly-ascending-and-unique test; equivalent to Python's
`xs == sorted(xs) and len(xs) == len(set(xs))` used by the structural checks. -/
def strictAsc : List String → Bool
  | [] => true
  | [_] => true
  | a :: b :: rest => strLtB a b && strictAsc (b :: rest)

/-- Same test for vote indices (Python ints). -/
def strictAscNat : List Nat → Bool
  | [] => true
  | [_] => true
  | a :: b :: rest => decide (a < b) && strictAscNat (b :: rest)

/-- Python's `sorted(set(xs))`: deduplicate, then sort ascending. -/
def sortedDedup (l : List String) : List String :=
  List.insertionSort (fun a b => strLeB a b = true) l.dedup

/-- Embeds `verify_signature` of `src/main_script.py`: the mocked verifier
ignores signature, key, and message, failing only for file paths that
mention the bad-signature fixture. -/
def verify_signature (_signature _key _message : String) (file_path : String) : Bool :=
  !(strContains file_path "progress_with_bad_signatures")

/-- `{entry["ed25519"] for entry in kappa + lambda_}`. -/
def valid_keys (kappa lambda_ : List Validator) : List String :=
  (kappa ++ lambda_).map (fun e => e.ed25519)

/-- Per-vote loop of `validate_votes`: index bound, guarantor key, signature. -/
def check_vote_list (kappa : List Validator) (vkeys : List String) (fp : String) :
    List Vote → Option ErrCode
  | [] => none
  | v :: rest =>
    match kappa[v.index]? with
    | none => some ErrCode.invalid_vote_index
    | some entry =>
      if entry.ed25519 ∉ vkeys then some ErrCode.bad_guarantor_key
      else if verify_signature v.signature entry.ed25519
          (toString v.vote ++ ":" ++ toString v.index) fp = false then
        some ErrCode.bad_signature
      else check_vote_list kappa vkeys fp rest

/-- Embeds `validate_votes` of `src/main_script.py`. -/
def validate_votes (votes : List Vote) (kappa lambda_ : List Validator)
    (age tau : Nat) (fp : String) : Option ErrCode :=
  if age ≠ tau then some ErrCode.bad_judgement_age
  else if strictAscNat (votes.map (fun v => v.index)) = false then
    some ErrCode.judgements_not_sorted_unique
  else check_vote_list kappa (valid_keys kappa lambda_) fp votes

/-- Per-culprit loop of `validate_culprits`. -/
def check_culprit_list (vkeys : List String) (psi : Psi) (targets : List String)
    (fp : String) : List Culprit → Option ErrCode
  | [] => none
  | c :: rest =>
    if c.key ∈ psi.offenders then some ErrCode.offender_already_reported
    else if c.target ∉ targets then some ErrCode.culprits_verdict_not_bad
    else if c.key ∉ vkeys then some ErrCode.bad_guarantor_key
    else if verify_signature c.signature c.key c.target fp = false then
      some ErrCode.bad_signature
    else check_culprit_list vkeys psi targets fp rest

/-- Embeds `validate_culprits` of `src/main_script.py`. -/
def validate_culprits (culprits : List Culprit) (kappa lambda_ : List Validator)
    (psi : Psi) (targets : List String) (fp : String) : Option ErrCode :=
  if strictAsc (culprits.map (fun c => c.key)) = false then
    some ErrCode.culprits_not_sorted_unique
  else check_culprit_list (valid_keys kappa lambda_) psi targets fp culprits

/-- First fault loop of `validate_faults`: offender / vote-bit / target checks. -/
def check_fault_list1 (psi : Psi) (targets : List String) :
    List Fault → Option ErrCode
  | [] => none
  | f :: rest =>
    if f.key ∈ psi.offenders then some ErrCode.offender_already_reported
    else if f.vote ≠ false then some ErrCode.fault_verdict_wrong
    else if f.target ∉ targets then some ErrCode.fault_verdict_not_good
    else check_fault_list1 psi targets rest

/-- Second fault loop of `validate_faults`: auditor key and signature checks. -/
def check_fault_list2 (vkeys : List String) (fp : String) :
    List Fault → Option ErrCode
  | [] => none
  | f :: rest =>
    if f.key ∉ vkeys then some ErrCode.bad_auditor_key
    else if verify_signature f.signature f.key f.target fp = false then
      some ErrCode.bad_signature
    else check_fault_list2 vkeys fp rest

/-- Embeds `validate_faults` of `src/main_script.py`. -/
def validate_faults (faults : List Fault) (kappa lambda_ : List Validator)
    (psi : Psi) (targets : List String) (fp : String) : Option ErrCode :=
  if strictAsc (faults.map (fun f => f.key)) = false then
    some ErrCode.faults_not_sorted_unique
  else
    match check_fault_list1 psi targets faults with
    | some e => some e
    | none => check_fault_list2 (valid_keys kappa lambda_) fp faults

/-- `positive = sum(1 for v in votes if v["vote"])`. -/
def positive_count (votes : List Vote) : Nat :=
  (votes.filter (fun v => v.vote)).length

/-- `two_thirds = (2 * total) // 3 + 1`. -/
def two_thirds_of (total : Nat) : Nat := 2 * total / 3 + 1

/-- `one_third = total // 3`. -/
def one_third_of (total : Nat) : Nat := total / 3

/-- `[c for c in culprits if c["target"] == target]`. -/
def verdict_culprits_for (culprits : List Culprit) (target : String) : List Culprit :=
  culprits.filter (fun c => decide (c.target = target))

/-- `[f for f in faults if f["target"] == target]`. -/
def verdict_faults_for (faults : List Fault) (target : String) : List Fault :=
  faults.filter (fun f => decide (f.target = target))

/-- Keys of the given culprits whose key is in the valid-key set
(the comprehension guard on the `culprit_keys.extend` line). -/
def matching_culprit_keys (cs : List Culprit) (vkeys : List String) : List String :=
  (cs.filter (fun c => decide (c.key ∈ vkeys))).map (fun c => c.key)

/-- Keys of the given faults whose key is in the valid-key set
(the comprehension guard on the `fault_keys.extend` line). -/
def matching_fault_keys (fs : List Fault) (vkeys : List String) : List String :=
  (fs.filter (fun f => decide (f.key ∈ vkeys))).map (fun f => f.key)

/-- The supermajority classification of one verdict (the `if positive >= two_thirds
/ elif positive == 0 / elif one_third <= positive < two_thirds` chain of
`process_disputes`).  Returns the updated psi, the culprit-key and fault-key
deltas, and the `judged` flag; note the chain has no final `else`, so a
`positive` falling in none of the three bands leaves the verdict unjudged. -/
def classify (v : Verdict) (culprits : List Culprit) (faults : List Fault)
    (psi : Psi) (vkeys : List String) :
    Except ErrCode (Psi × List String × List String × Bool) :=
  if positive_count v.votes ≥ two_thirds_of v.votes.length then
    if (verdict_faults_for faults v.target).length < 1 then
      Except.error ErrCode.not_enough_faults
    else if (verdict_culprits_for culprits v.target).length > 0 then
      Except.error ErrCode.culprits_verdict_not_bad
    else
      Except.ok ({ psi with good := psi.good ++ [v.target] }, [],
        matching_fault_keys (verdict_faults_for faults v.target) vkeys, true)
  else if positive_count v.votes = 0 then
    if (verdict_culprits_for culprits v.target).length < 2 then
      Except.error ErrCode.not_enough_culprits
    else if (verdict_faults_for faults v.target).length > 0 then
      Except.error ErrCode.faults_verdict_not_good
    else
      Except.ok ({ psi with bad := psi.bad ++ [v.target] },
        matching_culprit_keys (verdict_culprits_for culprits v.target) vkeys, [], true)
  else if one_third_of v.votes.length ≤ positive_count v.votes ∧
      positive_count v.votes < two_thirds_of v.votes.length then
    if positive_count v.votes = one_third_of v.votes.length then
      Except.error ErrCode.bad_vote_split
    else if (verdict_culprits_for culprits v.target).length > 0 ∨
        (verdict_faults_for faults v.target).length > 0 then
      Except.error ErrCode.culprits_verdict_not_bad
    else
      Except.ok ({ psi with wonky := psi.wonky ++ [v.target] }, [], [], true)
  else
    Except.ok (psi, [], [], false)

/-- Clearing loop over rho: empty every slot whose pending report hash is `target`. -/
def clear_matching (rho : List (Option AvailAssignment)) (target : String) :
    List (Option AvailAssignment) :=
  rho.map fun slot =>
    match slot with
    | some a => if a.report.package_spec.hash = target then none else some a
    | none => none

/-- The `if judged:` rho update of `process_disputes`, including the
filename-driven special case that clears only slot 0 for the first verdict. -/
def apply_rho (rho : List (Option AvailAssignment)) (target : String)
    (verdict_idx : Nat) (fp : String) (judged : Bool) :
    List (Option AvailAssignment) :=
  if judged then
    if strContains fp "progress_invalidates_avail_assignments-1.json" = true ∧
        verdict_idx = 0 then
      rho.set 0 none
    else clear_matching rho target
  else rho

/-- The body of the per-verdict loop of `process_disputes`: already-judged
check, vote validation, classification, rho update. -/
def verdict_step (v : Verdict) (verdict_idx : Nat) (culprits : List Culprit)
    (faults : List Fault) (psi : Psi) (rho : List (Option AvailAssignment))
    (kappa lambda_ : List Validator) (tau : Nat) (fp : String) :
    Except ErrCode (Psi × List (Option AvailAssignment) × List String × List String) :=
  if v.target ∈ psi.good ∨ v.target ∈ psi.bad ∨ v.target ∈ psi.wonky then
    Except.error ErrCode.already_judged
  else
    match validate_votes v.votes kappa lambda_ v.age tau fp with
    | some e => Except.error e
    | none =>
      match classify v culprits faults psi (valid_keys kappa lambda_) with
      | Except.error e => Except.error e
      | Except.ok (psi', cd, fd, judged) =>
        Except.ok (psi', apply_rho rho v.target verdict_idx fp judged, cd, fd)

/-- The `for verdict_idx, verdict in enumerate(verdicts)` loop, threading psi,
rho, and the accumulated culprit-key / fault-key lists. -/
def verdict_loop (culprits : List Culprit) (faults : List Fault)
    (kappa lambda_ : List Validator) (tau : Nat) (fp : String) :
    List Verdict → Nat → Psi → List (Option AvailAssignment) →
    List String → List String →
    Except ErrCode (Psi × List (Option AvailAssignment) × List String × List String)
  | [], _, psi, rho, ck, fk => Except.ok (psi, rho, ck, fk)
  | v :: rest, idx, psi, rho, ck, fk =>
    match verdict_step v idx culprits faults psi rho kappa lambda_ tau fp with
    | Except.error e => Except.error e
    | Except.ok (psi', rho', cd, fd) =>
      verdict_loop culprits faults kappa lambda_ tau fp rest (idx + 1)
        psi' rho' (ck ++ cd) (fk ++ fd)

/-- Embeds `process_disputes` of `src/main_script.py`.  Python's deep copies
give the value semantics that Lean terms have natively; each failure path
returns the pre-state unchanged. -/
def process_disputes (input_data : Disputes) (pre_state : State)
    (file_path : String) : Output × State :=
  if input_data.verdicts = [] ∧ input_data.culprits = [] ∧ input_data.faults = [] then
    (Output.ok [], pre_state)
  else if strictAsc (input_data.verdicts.map (fun v => v.target)) = false then
    (Output.err ErrCode.verdicts_not_sorted_unique, pre_state)
  else
    match validate_culprits input_data.culprits pre_state.kappa pre_state.lambda_
        pre_state.psi (input_data.verdicts.map (fun v => v.target)) file_path with
    | some e => (Output.err e, pre_state)
    | none =>
      match validate_faults input_data.faults pre_state.kappa pre_state.lambda_
          pre_state.psi (input_data.verdicts.map (fun v => v.target)) file_path with
      | some e => (Output.err e, pre_state)
      | none =>
        match verdict_loop input_data.culprits input_data.faults pre_state.kappa
            pre_state.lambda_ pre_state.tau file_path input_data.verdicts 0
            pre_state.psi pre_state.rho [] [] with
        | Except.error e => (Output.err e, pre_state)
        | Except.ok (psi1, rho1, culprit_keys, fault_keys) =>
          (Output.ok (culprit_keys ++ fault_keys),
           { psi :=
               { good := sortedDedup psi1.good
                 bad := sortedDedup psi1.bad
                 wonky := sortedDedup psi1.wonky
                 offenders := sortedDedup (psi1.offenders ++ (culprit_keys ++ fault_keys)) }
             rho := rho1
             tau := pre_state.tau
             kappa := pre_state.kappa
             lambda_ := pre_state.lambda_ })

namespace RefCase

/-- The per-verdict loop of `process_disputes` in `src/run_dispute_case.py`:
no vote validation, already-judged targets are skipped (not an error), the
wonky band is `positive == one_third`, and on any judgement slot 0 of rho is
unconditionally cleared before the matching-slot sweep. -/
def ref_verdict_loop : List Verdict → Psi → List (Option AvailAssignment) →
    Psi × List (Option AvailAssignment)
  | [], psi, rho => (psi, rho)
  | v :: rest, psi, rho =>
    if v.target ∈ psi.good ∨ v.target ∈ psi.bad ∨ v.target ∈ psi.wonky then
      ref_verdict_loop rest psi rho
    else
      if positive_count v.votes ≥ two_thirds_of v.votes.length then
        ref_verdict_loop rest { psi with good := psi.good ++ [v.target] }
          (clear_matching ((rho.set 0 none)) v.target)
      else if positive_count v.votes = 0 then
        ref_verdict_loop rest { psi with bad := psi.bad ++ [v.target] }
          (clear_matching ((rho.set 0 none)) v.target)
      else if positive_count v.votes = one_third_of v.votes.length then
        ref_verdict_loop rest { psi with wonky := psi.wonky ++ [v.target] }
          (clear_matching ((rho.set 0 none)) v.target)
      else ref_verdict_loop rest psi rho

/-- The two offender loops of the variant: append each culprit / fault key not
already present to both the offenders set and the batch marks. -/
def ref_add_keys : List String → Psi → List String → Psi × List String
  | [], psi, marks => (psi, marks)
  | k :: rest, psi, marks =>
    if k ∈ psi.offenders then ref_add_keys rest psi marks
    else ref_add_keys rest { psi with offenders := psi.offenders ++ [k] } (marks ++ [k])

/-- Embeds `process_disputes` of `src/run_dispute_case.py` (the simpler
reference variant; its unused local `get_validator_key` helper is dead code
and has no counterpart here). -/
def process_disputes (input_data : Disputes) (pre_state : State) : Output × State :=
  let p1 := ref_verdict_loop input_data.verdicts pre_state.psi pre_state.rho
  let p2 := ref_add_keys (input_data.culprits.map (fun c => c.key)) p1.1 []
  let p3 := ref_add_keys (input_data.faults.map (fun f => f.key)) p2.1 p2.2
  (Output.ok (sortedDedup p3.2),
   { psi :=
       { good := sortedDedup p3.1.good
         bad := sortedDedup p3.1.bad
         wonky := sortedDedup p3.1.wonky
         offenders := sortedDedup p3.1.offenders }
     rho := p1.2
     tau := pre_state.tau
     kappa := pre_state.kappa
     lambda_ := pre_state.lambda_ })

end RefCase

/-! ### Predicates used by the claim statements -/

/-- Does a rho slot hold a pending report whose package hash is `t`? -/
def slot_matches (slot : Option AvailAssignment) (t : String) : Bool :=
  match slot with
  | some a => decide (a.report.package_spec.hash = t)
  | none => false

/-- No slot of rho still references the report hash `t`. -/
def rho_cleared_of (rho : List (Option AvailAssignment)) (t : String) : Bool :=
  rho.all (fun slot => !(slot_matches slot t))

/-- The three judgement sets are pairwise disjoint. -/
def psiDisjoint (psi : Psi) : Prop :=
  (∀ x ∈ psi.good, x ∉ psi.bad) ∧ (∀ x ∈ psi.good, x ∉ psi.wonky) ∧
    (∀ x ∈ psi.bad, x ∉ psi.wonky)

instance (psi : Psi) : Decidable (psiDisjoint psi) := by
  unfold psiDisjoint
  infer_instance

/-- A target was judged in one of the three bands. -/
def judgedIn (psi : Psi) (t : String) : Prop :=
  t ∈ psi.good ∨ t ∈ psi.bad ∨ t ∈ psi.wonky

instance (psi : Psi) (t : String) : Decidable (judgedIn psi t) := by
  unfold judgedIn
  infer_instance

/-! ### Concrete inputs used by the witnesses and counterexamples -/

/-- A batch whose two verdict targets are out of order (for the atomicity witness). -/
def w1Inp : Disputes :=
  ⟨[⟨"b", 0, []⟩, ⟨"a", 0, []⟩], [], []⟩

/-- Pre-state for the atomicity witness. -/
def w1Pre : State := ⟨⟨[], [], [], ["o1"]⟩, [none], 7, [⟨"k0"⟩], [⟨"k9"⟩]⟩

/-- Six current validators, so a six-vote verdict passes vote validation. -/
def c2K : List Validator := [⟨"k0"⟩, ⟨"k1"⟩, ⟨"k2"⟩, ⟨"k3"⟩, ⟨"k4"⟩, ⟨"k5"⟩]

/-- A verdict with six valid votes of which exactly one is positive:
`positive = 1`, `total = 6`, `one_third = 2`, `two_thirds = 5`. -/
def c2V : Verdict :=
  ⟨"t1", 0, [⟨0, true, "s"⟩, ⟨1, false, "s"⟩, ⟨2, false, "s"⟩,
             ⟨3, false, "s"⟩, ⟨4, false, "s"⟩, ⟨5, false, "s"⟩]⟩

/-- Pre-state for the band-gap scenario. -/
def c2Pre : State := ⟨⟨[], [], [], []⟩, [], 0, c2K, []⟩

/-- Validators for the offender-mark ordering scenario: vote keys current,
culprit and fault keys in the previous set. -/
def c3K : List Validator := [⟨"k0"⟩, ⟨"k1"⟩, ⟨"k2"⟩]

/-- Previous-epoch validators holding the culprit keys `x`, `y` and fault key `a`. -/
def c3Lam : List Validator := [⟨"a"⟩, ⟨"x"⟩, ⟨"y"⟩]

/-- Batch with a unanimously-bad verdict `t1` (culprits `x`, `y`) followed by a
unanimously-good verdict `t2` (fault `a`): the offender marks come out as
culprit keys then fault keys, `["x", "y", "a"]`. -/
def c3Inp : Disputes :=
  ⟨[⟨"t1", 0, [⟨0, false, "s"⟩, ⟨1, false, "s"⟩, ⟨2, false, "s"⟩]⟩,
    ⟨"t2", 0, [⟨0, true, "s"⟩, ⟨1, true, "s"⟩, ⟨2, true, "s"⟩]⟩],
   [⟨"x", "t1", "s"⟩, ⟨"y", "t1", "s"⟩],
   [⟨"a", "t2", false, "s"⟩]⟩

/-- Pre-state for the offender-mark ordering scenario. -/
def c3Pre : State := ⟨⟨[], [], [], []⟩, [], 0, c3K, c3Lam⟩

/-- Post-state of `process_disputes c3Inp c3Pre "f"`. -/
def c3Post : State :=
  ⟨⟨["t2"], ["t1"], [], ["a", "x", "y"]⟩, [], 0, c3K, c3Lam⟩

/-- A single three-vote verdict with two positive votes: classified wonky. -/
def c4V : Verdict := ⟨"t1", 0, [⟨0, false, "s"⟩, ⟨1, true, "s"⟩, ⟨2, true, "s"⟩]⟩

/-- Batch holding only the wonky verdict. -/
def c4Inp : Disputes := ⟨[c4V], [], []⟩

/-- Pre-state whose rho slot 1 references the judged target `t1`. -/
def c4Pre : State :=
  ⟨⟨[], [], [], []⟩, [none, some ⟨⟨⟨"t1"⟩⟩⟩], 0, c3K, []⟩

/-- The file path that triggers the slot-0-only clearing special case. -/
def c4Fp : String := "tests/progress_invalidates_avail_assignments-1.json"

/-- Post-state of the magic-path run: slot 1 still references `t1`. -/
def c4PostMagic : State :=
  ⟨⟨[], [], ["t1"], []⟩, [none, some ⟨⟨⟨"t1"⟩⟩⟩], 0, c3K, []⟩

/-- Post-state of the ordinary-path run: every matching slot cleared. -/
def c4Post : State :=
  ⟨⟨[], [], ["t1"], []⟩, [none, none], 0, c3K, []⟩

/-- Pre-state for the empty-batch witness. -/
def c5Pre : State := ⟨⟨["g"], ["b"], ["w"], ["q", "p"]⟩, [none], 3, [⟨"k0"⟩], []⟩

/-- Batch whose culprit key is already an offender and whose fault keys are
out of order: the culprit semantic check fires before the fault structural
check. -/
def c6Inp : Disputes :=
  ⟨[⟨"t1", 0, []⟩], [⟨"k1", "t1", "s"⟩],
   [⟨"z", "t1", false, "s"⟩, ⟨"a", "t1", false, "s"⟩]⟩

/-- Pre-state already listing `k1` as an offender. -/
def c6Pre : State := ⟨⟨[], [], [], ["k1"]⟩, [], 0, [⟨"k1"⟩], []⟩

/-- Valid-culprit batch with unsorted fault keys, for the amended order claim. -/
def c6wInp : Disputes :=
  ⟨[], [], [⟨"z", "t1", false, "s"⟩, ⟨"a", "t1", false, "s"⟩]⟩

/-- Pre-state for the amended order witness. -/
def c6wPre : State := ⟨⟨[], [], [], []⟩, [], 0, [⟨"k1"⟩], []⟩

/-- A three-vote verdict with exactly one positive vote: `positive = one_third`. -/
def c7V : Verdict := ⟨"t1", 0, [⟨0, true, "s"⟩, ⟨1, false, "s"⟩, ⟨2, false, "s"⟩]⟩

/-- Empty judgement state for the threshold witness. -/
def c7Psi : Psi := ⟨[], [], [], []⟩

/-- Pre-state for the threshold witness. -/
def c7Pre : State := ⟨c7Psi, [], 0, c3K, []⟩

/-- Pre-state with an unsorted offenders list: returned unchanged by the
empty-batch success path. -/
def c9Pre : State := ⟨⟨[], [], [], ["b", "a"]⟩, [], 0, [], []⟩

/-- Non-empty successful batch for the monotonicity witness. -/
def c9wInp : Disputes := ⟨[c4V], [], []⟩

/-- Pre-state with unsorted offenders for the monotonicity witness; the
successful non-empty run re-sorts them. -/
def c9wPre : State := ⟨⟨[], [], [], ["b", "a"]⟩, [], 0, c3K, []⟩

/-- Post-state of the monotonicity witness run: wonky gains the target and
the offenders come back sorted. -/
def c9wPost : State := ⟨⟨[], [], ["t1"], ["a", "b"]⟩, [], 0, c3K, []⟩

/-- Batch for the reference-variant witness: one culprit and one fault key. -/
def c10Inp : Disputes :=
  ⟨[], [⟨"cx", "t9", "s"⟩], [⟨"fy", "t9", false, "s"⟩]⟩

/-- Pre-state for the reference-variant witness. -/
def c10Pre : State := ⟨⟨[], [], [], []⟩, [], 0, [], []⟩

/-! ### Order lemmas for the embedded string comparison -/

theorem charLtB_asymm {a b : Char} (h : charLtB a b = true) : charLtB b a = false := by
  simp only [charLtB, decide_eq_true_eq, decide_eq_false_iff_not] at *
  omega

theorem charLtB_trans {a b c : Char} (h1 : charLtB a b = true) (h2 : charLtB b c = true) :
    charLtB a c = true := by
  simp only [charLtB, decide_eq_true_eq] at *
  omega

theorem charLtB_conn {a b : Char} (h1 : charLtB a b = false) (h2 : charLtB b a = false) :
    a = b := by
  simp only [charLtB, decide_eq_false_iff_not] at *
  exact Char.ext (UInt32.toNat.inj (by omega))

theorem listLtB_asymm : ∀ (x y : List Char), listLtB x y = true → listLtB y x = false := by
  intro x
  induction x with
  | nil => intro y h; cases y <;> simp_all [listLtB]
  | cons a as ih =>
    intro y h
    cases y with
    | nil => simp [listLtB] at h
    | cons b bs =>
      simp only [listLtB] at h ⊢
      cases hab : charLtB a b with
      | true =>
        simp [charLtB_asymm hab, hab]
      | false =>
        cases hba : charLtB b a with
        | true => simp [hab, hba] at h
        | false =>
          simp only [hab, hba, if_false] at h ⊢
          exact ih bs h

theorem listLtB_trans : ∀ (x y z : List Char),
    listLtB x y = true → listLtB y z = true → listLtB x z = true := by
  intro x
  induction x with
  | nil =>
    intro y z h1 h2
    cases y with
    | nil => simp [listLtB] at h1
    | cons b bs =>
      cases z with
      | nil => simp [listLtB] at h2
      | cons c cs => simp [listLtB]
  | cons a as ih =>
    intro y z h1 h2
    cases y with
    | nil => simp [listLtB] at h1
    | cons b bs =>
      cases z with
      | nil => simp [listLtB] at h2
      | cons c cs =>
        simp only [listLtB] at h1 h2 ⊢
        cases hab : charLtB a b with
        | true =>
          cases hbc : charLtB b c with
          | true => simp [charLtB_trans hab hbc]
          | false =>
            cases hcb : charLtB c b with
            | true => simp [hbc, hcb] at h2
            | false =>
              have hbceq : b = c := charLtB_conn hbc hcb
              subst hbceq
              simp [hab]
        | false =>
          cases hba : charLtB b a with
          | true => simp [hab, hba] at h1
          | false =>
            have habq : a = b := charLtB_conn hab hba
            subst habq
            simp only [hab, if_false] at h1
            cases hac : charLtB a c with
            | true => simp [hac]
            | false =>
              cases hca : charLtB c a with
              | true => simp [hac, hca] at h2
              | false =>
                simp only [hac, hca, if_false] at h2 ⊢
                exact ih bs cs h1 h2

theorem listLtB_conn : ∀ (x y : List Char),
    listLtB x y = false → listLtB y x = false → x = y := by
  intro x
  induction x with
  | nil =>
    intro y h1 _
    cases y with
    | nil => rfl
    | cons b bs => simp [listLtB] at h1
  | cons a as ih =>
    intro y h1 h2
    cases y with
    | nil => simp [listLtB] at h2
    | cons b bs =>
      simp only [listLtB] at h1 h2
      cases hab : charLtB a b with
      | true => simp [hab] at h1
      | false =>
        cases hba : charLtB b a with
        | true => simp [hab, hba] at h2
        | false =>
          simp only [hab, hba, if_false] at h1 h2
          rw [charLtB_conn hab hba, ih bs h1 h2]

theorem strLtB_asymm {a b : String} (h : strLtB a b = true) : strLtB b a = false :=
  listLtB_asymm a.data b.data h

theorem strLtB_trans {a b c : String} (h1 : strLtB a b = true) (h2 : strLtB b c = true) :
    strLtB a c = true :=
  listLtB_trans a.data b.data c.data h1 h2

theorem strLtB_conn {a b : String} (h1 : strLtB a b = false) (h2 : strLtB b a = false) :
    a = b := by
  cases a with
  | mk da =>
    cases b with
    | mk db =>
      have : da = db := listLtB_conn da db h1 h2
      rw [this]

theorem strLeB_total (a b : String) : strLeB a b = true ∨ strLeB b a = true := by
  unfold strLeB
  cases h : strLtB b a with
  | false => left; simp
  | true => right; simp [strLtB_asymm h]

instance : IsTotal String (fun a b => strLeB a b = true) := ⟨strLeB_total⟩

theorem strLeB_trans {a b c : String} (h1 : strLeB a b = true) (h2 : strLeB b c = true) :
    strLeB a c = true := by
  unfold strLeB at *
  simp only [Bool.not_eq_true'] at *
  cases hca : strLtB c a with
  | false => rfl
  | true =>
    cases hab : strLtB a b with
    | true => rw [strLtB_trans hca hab] at h2; exact h2
    | false =>
      have : a = b := strLtB_conn hab h1
      subst this
      rw [hca] at h2
      exact h2

instance : IsTrans String (fun a b => strLeB a b = true) := ⟨fun _ _ _ => strLeB_trans⟩

theorem strLtB_of_leB_ne {a b : String} (h1 : strLeB a b = true) (h2 : a ≠ b) :
    strLtB a b = true := by
  unfold strLeB at h1
  simp only [Bool.not_eq_true'] at h1
  cases hab : strLtB a b with
  | true => rfl
  | false => exact absurd (strLtB_conn hab h1) h2

theorem strictAsc_of_pairwise : ∀ (l : List String),
    l.Pairwise (fun a b => strLtB a b = true) → strictAsc l = true := by
  intro l
  induction l with
  | nil => intro _; rfl
  | cons a l ih =>
    intro h
    rw [List.pairwise_cons] at h
    cases l with
    | nil => rfl
    | cons b r =>
      rw [strictAsc, Bool.and_eq_true]
      exact ⟨h.1 b (List.mem_cons_self b r), ih h.2⟩

theorem pairwise_lt_of_sorted_nodup (l : List String)
    (hs : List.Pairwise (fun a b => strLeB a b = true) l) (hn : l.Nodup) :
    l.Pairwise (fun a b => strLtB a b = true) :=
  (hs.and hn).imp (fun h => strLtB_of_leB_ne h.1 h.2)

theorem sortedDedup_perm_dedup (l : List String) :
    List.Perm (sortedDedup l) l.dedup :=
  List.perm_insertionSort _ l.dedup

theorem mem_sortedDedup {a : String} {l : List String} :
    a ∈ sortedDedup l ↔ a ∈ l :=
  (sortedDedup_perm_dedup l).mem_iff.trans List.mem_dedup

theorem strictAsc_sortedDedup (l : List String) : strictAsc (sortedDedup l) = true := by
  apply strictAsc_of_pairwise
  apply pairwise_lt_of_sorted_nodup
  · exact List.sorted_insertionSort _ l.dedup
  · exact (sortedDedup_perm_dedup l).nodup_iff.mpr (List.nodup_dedup l)

/-! ### Structural lemmas about the classifier and the verdict loop -/

theorem apply_rho_not_judged (rho : List (Option AvailAssignment)) (t : String)
    (i : Nat) (fp : String) : apply_rho rho t i fp false = rho := by
  simp [apply_rho]

theorem mem_matching_culprit_keys {k : String} {cs : List Culprit} {vkeys : List String}
    (h : k ∈ matching_culprit_keys cs vkeys) : ∃ c ∈ cs, c.key = k := by
  unfold matching_culprit_keys at h
  rw [List.mem_map] at h
  obtain ⟨c, hc, hk⟩ := h
  exact ⟨c, (List.mem_filter.mp hc).1, hk⟩

theorem mem_matching_fault_keys {k : String} {fs : List Fault} {vkeys : List String}
    (h : k ∈ matching_fault_keys fs vkeys) : ∃ f ∈ fs, f.key = k := by
  unfold matching_fault_keys at h
  rw [List.mem_map] at h
  obtain ⟨f, hf, hk⟩ := h
  exact ⟨f, (List.mem_filter.mp hf).1, hk⟩

theorem matching_culprit_keys_complete {c : Culprit} {cs : List Culprit}
    {vkeys : List String} (hc : c ∈ cs) (hk : c.key ∈ vkeys) :
    c.key ∈ matching_culprit_keys cs vkeys := by
  unfold matching_culprit_keys
  rw [List.mem_map]
  exact ⟨c, List.mem_filter.mpr ⟨hc, by simpa using hk⟩, rfl⟩

theorem matching_fault_keys_complete {f : Fault} {fs : List Fault}
    {vkeys : List String} (hf : f ∈ fs) (hk : f.key ∈ vkeys) :
    f.key ∈ matching_fault_keys fs vkeys := by
  unfold matching_fault_keys
  rw [List.mem_map]
  exact ⟨f, List.mem_filter.mpr ⟨hf, by simpa using hk⟩, rfl⟩

theorem mem_verdict_culprits_for {c : Culprit} {cs : List Culprit} {t : String} :
    c ∈ verdict_culprits_for cs t ↔ c ∈ cs ∧ c.target = t := by
  unfold verdict_culprits_for
  rw [List.mem_filter]
  simp

theorem mem_verdict_faults_for {f : Fault} {fs : List Fault} {t : String} :
    f ∈ verdict_faults_for fs t ↔ f ∈ fs ∧ f.target = t := by
  unfold verdict_faults_for
  rw [List.mem_filter]
  simp

/-- Inversion of a successful classification: the verdict is either silently
unjudged (no band matched), or appended to exactly one of good, bad, wonky
with the corresponding key delta. -/
theorem classify_ok_cases {v : Verdict} {cs : List Culprit} {fs : List Fault}
    {psi : Psi} {vkeys : List String} {psi' : Psi} {cd fd : List String} {judged : Bool}
    (h : classify v cs fs psi vkeys = Except.ok (psi', cd, fd, judged)) :
    (psi' = psi ∧ cd = [] ∧ fd = [] ∧ judged = false)
    ∨ (psi' = { psi with good := psi.good ++ [v.target] } ∧ cd = []
        ∧ fd = matching_fault_keys (verdict_faults_for fs v.target) vkeys ∧ judged = true)
    ∨ (psi' = { psi with bad := psi.bad ++ [v.target] }
        ∧ cd = matching_culprit_keys (verdict_culprits_for cs v.target) vkeys
        ∧ fd = [] ∧ judged = true)
    ∨ (psi' = { psi with wonky := psi.wonky ++ [v.target] } ∧ cd = [] ∧ fd = []
        ∧ judged = true) := by
  unfold classify at h
  split_ifs at h <;>
    simp only [Except.ok.injEq, Prod.mk.injEq] at h
  · exact Or.inr (Or.inl ⟨h.1.symm, h.2.1.symm, h.2.2.1.symm, h.2.2.2.symm⟩)
  · exact Or.inr (Or.inr (Or.inl ⟨h.1.symm, h.2.1.symm, h.2.2.1.symm, h.2.2.2.symm⟩))
  · exact Or.inr (Or.inr (Or.inr ⟨h.1.symm, h.2.1.symm, h.2.2.1.symm, h.2.2.2.symm⟩))
  · exact Or.inl ⟨h.1.symm, h.2.1.symm, h.2.2.1.symm, h.2.2.2.symm⟩

/-- Inversion of a successful verdict step. -/
theorem verdict_step_ok_cases {v : Verdict} {idx : Nat} {cs : List Culprit}
    {fs : List Fault} {psi : Psi} {rho : List (Option AvailAssignment)}
    {kap lam : List Validator} {tau : Nat} {fp : String}
    {psi' : Psi} {rho' : List (Option AvailAssignment)} {cd fd : List String}
    (h : verdict_step v idx cs fs psi rho kap lam tau fp
        = Except.ok (psi', rho', cd, fd)) :
    (v.target ∉ psi.good ∧ v.target ∉ psi.bad ∧ v.target ∉ psi.wonky) ∧
    validate_votes v.votes kap lam v.age tau fp = none ∧
    ((psi' = psi ∧ rho' = rho ∧ cd = [] ∧ fd = [])
     ∨ (rho' = apply_rho rho v.target idx fp true ∧
        ((psi' = { psi with good := psi.good ++ [v.target] } ∧ cd = []
            ∧ fd = matching_fault_keys (verdict_faults_for fs v.target) (valid_keys kap lam))
         ∨ (psi' = { psi with bad := psi.bad ++ [v.target] }
            ∧ cd = matching_culprit_keys (verdict_culprits_for cs v.target) (valid_keys kap lam)
            ∧ fd = [])
         ∨ (psi' = { psi with wonky := psi.wonky ++ [v.target] } ∧ cd = [] ∧ fd = [])))) := by
  unfold verdict_step at h
  split at h
  · exact absurd h (fun hh => Except.noConfusion hh)
  next hnj =>
    rw [not_or, not_or] at hnj
    refine ⟨⟨hnj.1, hnj.2.1, hnj.2.2⟩, ?_⟩
    split at h
    · exact absurd h (fun hh => Except.noConfusion hh)
    next hvv =>
      refine ⟨hvv, ?_⟩
      split at h
      · exact absurd h (fun hh => Except.noConfusion hh)
      next psi1 cd1 fd1 j1 hcl =>
        simp only [Except.ok.injEq, Prod.mk.injEq] at h
        obtain ⟨hpsi, hrho, hcd, hfd⟩ := h
        subst hpsi; subst hrho; subst hcd; subst hfd
        rcases classify_ok_cases hcl with
          ⟨h1, h2, h3, h4⟩ | ⟨h1, h2, h3, h4⟩ | ⟨h1, h2, h3, h4⟩ | ⟨h1, h2, h3, h4⟩
        · subst h1; subst h2; subst h3; subst h4
          exact Or.inl ⟨rfl, apply_rho_not_judged rho v.target idx fp, rfl, rfl⟩
        · subst h1; subst h2; subst h3; subst h4
          exact Or.inr ⟨rfl, Or.inl ⟨rfl, rfl, rfl⟩⟩
        · subst h1; subst h2; subst h3; subst h4
          exact Or.inr ⟨rfl, Or.inr (Or.inl ⟨rfl, rfl, rfl⟩)⟩
        · subst h1; subst h2; subst h3; subst h4
          exact Or.inr ⟨rfl, Or.inr (Or.inr ⟨rfl, rfl, rfl⟩)⟩

theorem bool_ne_false {b : Bool} (h : ¬(b = false)) : b = true := by
  cases b
  · exact absurd rfl h
  · rfl

theorem mem_clear_matching {s : Option AvailAssignment}
    {rho : List (Option AvailAssignment)} {t : String}
    (h : s ∈ clear_matching rho t) : s ∈ rho ∨ s = none := by
  unfold clear_matching at h
  rw [List.mem_map] at h
  obtain ⟨s0, hs0, heq⟩ := h
  cases s0 with
  | none => exact Or.inr heq.symm
  | some a =>
    dsimp only at heq
    by_cases hm : a.report.package_spec.hash = t
    · rw [if_pos hm] at heq
      exact Or.inr heq.symm
    · rw [if_neg hm] at heq
      exact Or.inl (heq ▸ hs0)

theorem clear_matching_cleared (rho : List (Option AvailAssignment)) (t : String) :
    ∀ s ∈ clear_matching rho t, slot_matches s t = false := by
  intro s hs
  unfold clear_matching at hs
  rw [List.mem_map] at hs
  obtain ⟨s0, _, heq⟩ := hs
  cases s0 with
  | none => rw [← heq]; rfl
  | some a =>
    dsimp only at heq
    by_cases hm : a.report.package_spec.hash = t
    · rw [if_pos hm] at heq
      rw [← heq]; rfl
    · rw [if_neg hm] at heq
      rw [← heq]
      simp [slot_matches, hm]

theorem mem_apply_rho {s : Option AvailAssignment}
    {rho : List (Option AvailAssignment)} {t : String} {i : Nat} {fp : String}
    {j : Bool} (h : s ∈ apply_rho rho t i fp j) : s ∈ rho ∨ s = none := by
  unfold apply_rho at h
  cases j with
  | false => exact Or.inl h
  | true =>
    simp only [if_true] at h
    split at h
    · rcases List.mem_or_eq_of_mem_set h with hm | he
      · exact Or.inl hm
      · exact Or.inr he
    · exact mem_clear_matching h

theorem apply_rho_true_cleared {rho : List (Option AvailAssignment)} {t : String}
    {i : Nat} {fp : String}
    (hfp : strContains fp "progress_invalidates_avail_assignments-1.json" = false) :
    ∀ s ∈ apply_rho rho t i fp true, slot_matches s t = false := by
  intro s hs
  unfold apply_rho at hs
  simp only [if_true] at hs
  rw [if_neg (by rw [hfp]; simp)] at hs
  exact clear_matching_cleared rho t s hs

/-! ### Inversion of the attestation validators -/

theorem check_culprit_list_none {vkeys : List String} {psi : Psi}
    {targets : List String} {fp : String} :
    ∀ cs : List Culprit, check_culprit_list vkeys psi targets fp cs = none →
    ∀ c ∈ cs, c.key ∉ psi.offenders ∧ c.key ∈ vkeys ∧ c.target ∈ targets := by
  intro cs
  induction cs with
  | nil => intro _ c hc; exact absurd hc (List.not_mem_nil c)
  | cons a rest ih =>
    intro h c hc
    rw [check_culprit_list] at h
    split_ifs at h with h1 h2 h3 h4 <;>
      try exact absurd h (fun hh => Option.noConfusion hh)
    rcases List.mem_cons.mp hc with hc | hc
    · subst hc
      exact ⟨h1, h3, h2⟩
    · exact ih h c hc

theorem validate_culprits_none {cs : List Culprit} {kap lam : List Validator}
    {psi : Psi} {targets : List String} {fp : String}
    (h : validate_culprits cs kap lam psi targets fp = none) :
    strictAsc (cs.map (fun c => c.key)) = true ∧
    ∀ c ∈ cs, c.key ∉ psi.offenders ∧ c.key ∈ valid_keys kap lam ∧
      c.target ∈ targets := by
  unfold validate_culprits at h
  split_ifs at h with h1 <;>
    try exact absurd h (fun hh => Option.noConfusion hh)
  exact ⟨bool_ne_false h1, check_culprit_list_none cs h⟩

theorem check_fault_list1_none {psi : Psi} {targets : List String} :
    ∀ fs : List Fault, check_fault_list1 psi targets fs = none →
    ∀ f ∈ fs, f.key ∉ psi.offenders ∧ f.vote = false ∧ f.target ∈ targets := by
  intro fs
  induction fs with
  | nil => intro _ f hf; exact absurd hf (List.not_mem_nil f)
  | cons a rest ih =>
    intro h f hf
    rw [check_fault_list1] at h
    split_ifs at h with h1 h2 h3 <;>
      try exact absurd h (fun hh => Option.noConfusion hh)
    rcases List.mem_cons.mp hf with hf | hf
    · subst hf
      exact ⟨h1, by simpa using h2, h3⟩
    · exact ih h f hf

theorem check_fault_list2_none {vkeys : List String} {fp : String} :
    ∀ fs : List Fault, check_fault_list2 vkeys fp fs = none →
    ∀ f ∈ fs, f.key ∈ vkeys := by
  intro fs
  induction fs with
  | nil => intro _ f hf; exact absurd hf (List.not_mem_nil f)
  | cons a rest ih =>
    intro h f hf
    rw [check_fault_list2] at h
    split_ifs at h with h1 h2 <;>
      try exact absurd h (fun hh => Option.noConfusion hh)
    rcases List.mem_cons.mp hf with hf | hf
    · subst hf
      exact h1
    · exact ih h f hf

theorem validate_faults_none {fs : List Fault} {kap lam : List Validator}
    {psi : Psi} {targets : List String} {fp : String}
    (h : validate_faults fs kap lam psi targets fp = none) :
    strictAsc (fs.map (fun f => f.key)) = true ∧
    ∀ f ∈ fs, f.key ∉ psi.offenders ∧ f.key ∈ valid_keys kap lam ∧
      f.vote = false ∧ f.target ∈ targets := by
  unfold validate_faults at h
  split_ifs at h with h1 <;>
    try exact absurd h (fun hh => Option.noConfusion hh)
  refine ⟨bool_ne_false h1, ?_⟩
  split at h
  · exact absurd h (fun hh => Option.noConfusion hh)
  next hl1 =>
    intro f hf
    obtain ⟨ho, hv, ht⟩ := check_fault_list1_none fs hl1 f hf
    exact ⟨ho, check_fault_list2_none fs h f hf, hv, ht⟩

/-! ### The verdict loop: accumulated facts -/

/-- Compact per-step facts used by the loop inductions. -/
theorem verdict_step_ok_facts {v : Verdict} {idx : Nat} {cs : List Culprit}
    {fs : List Fault} {psi : Psi} {rho : List (Option AvailAssignment)}
    {kap lam : List Validator} {tau : Nat} {fp : String}
    {psi' : Psi} {rho' : List (Option AvailAssignment)} {cd fd : List String}
    (h : verdict_step v idx cs fs psi rho kap lam tau fp
        = Except.ok (psi', rho', cd, fd)) :
    psi'.offenders = psi.offenders ∧
    (psi'.good = psi.good ∨ psi'.good = psi.good ++ [v.target]) ∧
    (psi'.bad = psi.bad ∨ psi'.bad = psi.bad ++ [v.target]) ∧
    (psi'.wonky = psi.wonky ∨ psi'.wonky = psi.wonky ++ [v.target]) ∧
    (∀ k ∈ cd, ∃ c ∈ cs, c.key = k ∧ c.target = v.target) ∧
    (cd ≠ [] → psi'.bad = psi.bad ++ [v.target]) ∧
    (∀ k ∈ fd, ∃ f ∈ fs, f.key = k ∧ f.target = v.target) ∧
    (fd ≠ [] → psi'.good = psi.good ++ [v.target]) ∧
    (∀ s ∈ rho', s ∈ rho ∨ s = none) ∧
    v.target ∉ psi.good ∧ v.target ∉ psi.bad ∧ v.target ∉ psi.wonky := by
  obtain ⟨⟨hg, hb, hw⟩, _, hcases⟩ := verdict_step_ok_cases h
  rcases hcases with ⟨h1, h2, h3, h4⟩ | ⟨hr, ⟨h1, h3, h4⟩ | ⟨h1, h3, h4⟩ | ⟨h1, h3, h4⟩⟩
  · subst h1; subst h2; subst h3; subst h4
    exact ⟨rfl, Or.inl rfl, Or.inl rfl, Or.inl rfl,
      fun k hk => absurd hk (List.not_mem_nil k),
      fun hne => absurd rfl hne,
      fun k hk => absurd hk (List.not_mem_nil k),
      fun hne => absurd rfl hne,
      fun s hs => Or.inl hs, hg, hb, hw⟩
  · subst h1; subst h3; subst h4; subst hr
    refine ⟨rfl, Or.inr rfl, Or.inl rfl, Or.inl rfl,
      fun k hk => absurd hk (List.not_mem_nil k),
      fun hne => absurd rfl hne,
      ?_, fun _ => rfl, fun s hs => mem_apply_rho hs, hg, hb, hw⟩
    intro k hk
    obtain ⟨f, hf, hkey⟩ := mem_matching_fault_keys hk
    obtain ⟨hfm, hft⟩ := mem_verdict_faults_for.mp hf
    exact ⟨f, hfm, hkey, hft⟩
  · subst h1; subst h3; subst h4; subst hr
    refine ⟨rfl, Or.inl rfl, Or.inr rfl, Or.inl rfl,
      ?_, fun _ => rfl,
      fun k hk => absurd hk (List.not_mem_nil k),
      fun hne => absurd rfl hne,
      fun s hs => mem_apply_rho hs, hg, hb, hw⟩
    intro k hk
    obtain ⟨c, hc, hkey⟩ := mem_matching_culprit_keys hk
    obtain ⟨hcm, hct⟩ := mem_verdict_culprits_for.mp hc
    exact ⟨c, hcm, hkey, hct⟩
  · subst h1; subst h3; subst h4; subst hr
    exact ⟨rfl, Or.inl rfl, Or.inl rfl, Or.inr rfl,
      fun k hk => absurd hk (List.not_mem_nil k),
      fun hne => absurd rfl hne,
      fun k hk => absurd hk (List.not_mem_nil k),
      fun hne => absurd rfl hne,
      fun s hs => mem_apply_rho hs, hg, hb, hw⟩

/-- Master invariants of a successful run of the verdict loop. -/
theorem verdict_loop_ok_master {cs : List Culprit} {fs : List Fault}
    {kap lam : List Validator} {tau : Nat} {fp : String} :
    ∀ (vs : List Verdict) (idx : Nat) (psi : Psi)
      (rho : List (Option AvailAssignment)) (ck fk : List String)
      {psi' : Psi} {rho' : List (Option AvailAssignment)} {ck' fk' : List String},
      verdict_loop cs fs kap lam tau fp vs idx psi rho ck fk
        = Except.ok (psi', rho', ck', fk') →
      psi'.offenders = psi.offenders ∧
      (∃ g, psi'.good = psi.good ++ g) ∧
      (∃ b, psi'.bad = psi.bad ++ b) ∧
      (∃ w, psi'.wonky = psi.wonky ++ w) ∧
      (∃ cd, ck' = ck ++ cd ∧
        ∀ k ∈ cd, ∃ c ∈ cs, c.key = k ∧ c.target ∈ psi'.bad ∧ c.target ∉ psi.bad) ∧
      (∃ fd, fk' = fk ++ fd ∧
        ∀ k ∈ fd, ∃ f ∈ fs, f.key = k ∧ f.target ∈ psi'.good ∧ f.target ∉ psi.good) ∧
      (∀ s ∈ rho', s ∈ rho ∨ s = none) := by
  intro vs
  induction vs with
  | nil =>
    intro idx psi rho ck fk psi' rho' ck' fk' h
    rw [verdict_loop] at h
    simp only [Except.ok.injEq, Prod.mk.injEq] at h
    obtain ⟨h1, h2, h3, h4⟩ := h
    subst h1; subst h2; subst h3; subst h4
    exact ⟨rfl, ⟨[], by simp⟩, ⟨[], by simp⟩, ⟨[], by simp⟩,
      ⟨[], by simp, fun k hk => absurd hk (List.not_mem_nil k)⟩,
      ⟨[], by simp, fun k hk => absurd hk (List.not_mem_nil k)⟩,
      fun s hs => Or.inl hs⟩
  | cons v rest ih =>
    intro idx psi rho ck fk psi' rho' ck' fk' h
    rw [verdict_loop] at h
    split at h
    · exact absurd h (fun hh => Except.noConfusion hh)
    next psi1 rho1 cd1 fd1 hst =>
      obtain ⟨hoff, hgood, hbad, hwonky, hcd1, hcd1ne, hfd1, hfd1ne, hrho1, hg0, hb0, hw0⟩ :=
        verdict_step_ok_facts hst
      obtain ⟨ihoff, ⟨g2, ihg⟩, ⟨b2, ihb⟩, ⟨w2, ihw⟩,
        ⟨cd2, ihck, ihcd2⟩, ⟨fd2, ihfk, ihfd2⟩, ihrho⟩ :=
        ih (idx + 1) psi1 rho1 (ck ++ cd1) (fk ++ fd1) h
      have hgood1 : ∃ g, psi'.good = psi.good ++ g := by
        rcases hgood with hgood | hgood
        · exact ⟨g2, by rw [ihg, hgood]⟩
        · exact ⟨[v.target] ++ g2, by rw [ihg, hgood, List.append_assoc]⟩
      have hbad1 : ∃ b, psi'.bad = psi.bad ++ b := by
        rcases hbad with hbad | hbad
        · exact ⟨b2, by rw [ihb, hbad]⟩
        · exact ⟨[v.target] ++ b2, by rw [ihb, hbad, List.append_assoc]⟩
      have hwonky1 : ∃ w, psi'.wonky = psi.wonky ++ w := by
        rcases hwonky with hwonky | hwonky
        · exact ⟨w2, by rw [ihw, hwonky]⟩
        · exact ⟨[v.target] ++ w2, by rw [ihw, hwonky, List.append_assoc]⟩
      refine ⟨by rw [ihoff, hoff], hgood1, hbad1, hwonky1,
        ⟨cd1 ++ cd2, by rw [ihck, List.append_assoc], ?_⟩,
        ⟨fd1 ++ fd2, by rw [ihfk, List.append_assoc], ?_⟩, ?_⟩
      · intro k hk
        rcases List.mem_append.mp hk with hk | hk
        · obtain ⟨c, hcm, hkey, hct⟩ := hcd1 k hk
          have hb1 : psi1.bad = psi.bad ++ [v.target] :=
            hcd1ne (by intro hnil; rw [hnil] at hk; exact List.not_mem_nil k hk)
          refine ⟨c, hcm, hkey, ?_, by rw [hct]; exact hb0⟩
          rw [ihb, hb1, hct]
          exact List.mem_append_left _ (List.mem_append_right _ (List.mem_singleton.mpr rfl))
        · obtain ⟨c, hcm, hkey, hct, hctn⟩ := ihcd2 k hk
          refine ⟨c, hcm, hkey, hct, ?_⟩
          intro hcp
          apply hctn
          rcases hbad with hbad | hbad
          · rw [hbad]; exact hcp
          · rw [hbad]; exact List.mem_append_left _ hcp
      · intro k hk
        rcases List.mem_append.mp hk with hk | hk
        · obtain ⟨f, hfm, hkey, hft⟩ := hfd1 k hk
          have hg1 : psi1.good = psi.good ++ [v.target] :=
            hfd1ne (by intro hnil; rw [hnil] at hk; exact List.not_mem_nil k hk)
          refine ⟨f, hfm, hkey, ?_, by rw [hft]; exact hg0⟩
          rw [ihg, hg1, hft]
          exact List.mem_append_left _ (List.mem_append_right _ (List.mem_singleton.mpr rfl))
        · obtain ⟨f, hfm, hkey, hft, hftn⟩ := ihfd2 k hk
          refine ⟨f, hfm, hkey, hft, ?_⟩
          intro hfp2
          apply hftn
          rcases hgood with hgood | hgood
          · rw [hgood]; exact hfp2
          · rw [hgood]; exact List.mem_append_left _ hfp2
      · intro s hs
        rcases ihrho s hs with hs1 | hs1
        · exact hrho1 s hs1
        · exact Or.inr hs1

/-- One judged step preserves pairwise disjointness of good, bad, wonky. -/
theorem verdict_step_disjoint {v : Verdict} {idx : Nat} {cs : List Culprit}
    {fs : List Fault} {psi : Psi} {rho : List (Option AvailAssignment)}
    {kap lam : List Validator} {tau : Nat} {fp : String}
    {psi' : Psi} {rho' : List (Option AvailAssignment)} {cd fd : List String}
    (h : verdict_step v idx cs fs psi rho kap lam tau fp
        = Except.ok (psi', rho', cd, fd))
    (hd : psiDisjoint psi) : psiDisjoint psi' := by
  obtain ⟨⟨hg, hb, hw⟩, _, hcases⟩ := verdict_step_ok_cases h
  obtain ⟨hd1, hd2, hd3⟩ := hd
  rcases hcases with ⟨h1, _, _, _⟩ | ⟨_, ⟨h1, _, _⟩ | ⟨h1, _, _⟩ | ⟨h1, _, _⟩⟩
  · subst h1; exact ⟨hd1, hd2, hd3⟩
  · subst h1
    refine ⟨?_, ?_, hd3⟩
    · intro x hx
      rcases List.mem_append.mp hx with hx | hx
      · exact hd1 x hx
      · rw [List.mem_singleton.mp hx]; exact hb
    · intro x hx
      rcases List.mem_append.mp hx with hx | hx
      · exact hd2 x hx
      · rw [List.mem_singleton.mp hx]; exact hw
  · subst h1
    refine ⟨?_, hd2, ?_⟩
    · intro x hx hxb
      rcases List.mem_append.mp hxb with hxb | hxb
      · exact hd1 x hx hxb
      · rw [List.mem_singleton.mp hxb] at hx; exact hg hx
    · intro x hx
      rcases List.mem_append.mp hx with hx | hx
      · exact hd3 x hx
      · rw [List.mem_singleton.mp hx]; exact hw
  · subst h1
    refine ⟨hd1, ?_, ?_⟩
    · intro x hx hxw
      rcases List.mem_append.mp hxw with hxw | hxw
      · exact hd2 x hx hxw
      · rw [List.mem_singleton.mp hxw] at hx; exact hg hx
    · intro x hx hxw
      rcases List.mem_append.mp hxw with hxw | hxw
      · exact hd3 x hx hxw
      · rw [List.mem_singleton.mp hxw] at hx; exact hb hx

/-- The verdict loop preserves pairwise disjointness of good, bad, wonky. -/
theorem verdict_loop_disjoint {cs : List Culprit} {fs : List Fault}
    {kap lam : List Validator} {tau : Nat} {fp : String} :
    ∀ (vs : List Verdict) (idx : Nat) (psi : Psi)
      (rho : List (Option AvailAssignment)) (ck fk : List String)
      {psi' : Psi} {rho' : List (Option AvailAssignment)} {ck' fk' : List String},
      verdict_loop cs fs kap lam tau fp vs idx psi rho ck fk
        = Except.ok (psi', rho', ck', fk') →
      psiDisjoint psi → psiDisjoint psi' := by
  intro vs
  induction vs with
  | nil =>
    intro idx psi rho ck fk psi' rho' ck' fk' h hd
    rw [verdict_loop] at h
    simp only [Except.ok.injEq, Prod.mk.injEq] at h
    rw [← h.1]
    exact hd
  | cons v rest ih =>
    intro idx psi rho ck fk psi' rho' ck' fk' h hd
    rw [verdict_loop] at h
    split at h
    · exact absurd h (fun hh => Except.noConfusion hh)
    next psi1 rho1 cd1 fd1 hst =>
      exact ih (idx + 1) psi1 rho1 (ck ++ cd1) (fk ++ fd1) h
        (verdict_step_disjoint hst hd)

/-- Away from the special-cased file path, a target newly judged by the loop
has every matching rho slot cleared in the final rho. -/
theorem verdict_loop_clears {cs : List Culprit} {fs : List Fault}
    {kap lam : List Validator} {tau : Nat} {fp : String}
    (hfp : strContains fp "progress_invalidates_avail_assignments-1.json" = false) :
    ∀ (vs : List Verdict) (idx : Nat) (psi : Psi)
      (rho : List (Option AvailAssignment)) (ck fk : List String)
      {psi' : Psi} {rho' : List (Option AvailAssignment)} {ck' fk' : List String},
      verdict_loop cs fs kap lam tau fp vs idx psi rho ck fk
        = Except.ok (psi', rho', ck', fk') →
      ∀ t, ((t ∈ psi'.good ∧ t ∉ psi.good) ∨ (t ∈ psi'.bad ∧ t ∉ psi.bad) ∨
            (t ∈ psi'.wonky ∧ t ∉ psi.wonky)) →
      ∀ s ∈ rho', slot_matches s t = false := by
  intro vs
  induction vs with
  | nil =>
    intro idx psi rho ck fk psi' rho' ck' fk' h t hdisj
    rw [verdict_loop] at h
    simp only [Except.ok.injEq, Prod.mk.injEq] at h
    rw [← h.1] at hdisj
    rcases hdisj with ⟨hi, hn⟩ | ⟨hi, hn⟩ | ⟨hi, hn⟩ <;> exact absurd hi hn
  | cons v rest ih =>
    intro idx psi rho ck fk psi' rho' ck' fk' h t hdisj
    rw [verdict_loop] at h
    split at h
    · exact absurd h (fun hh => Except.noConfusion hh)
    next psi1 rho1 cd1 fd1 hst =>
      obtain ⟨_, _, hcases⟩ := verdict_step_ok_cases hst
      rcases hcases with ⟨hpsi1, hrho1, _, _⟩ | ⟨hrho1, hbranch⟩
      · rw [hpsi1, hrho1] at h
        exact ih (idx + 1) psi rho (ck ++ cd1) (fk ++ fd1) h t hdisj
      · by_cases ht : t = v.target
        · subst ht
          intro s hs
          rcases (verdict_loop_ok_master rest (idx + 1) psi1 rho1
              (ck ++ cd1) (fk ++ fd1) h).2.2.2.2.2.2 s hs with hs1 | hs1
          · exact apply_rho_true_cleared hfp s (hrho1 ▸ hs1)
          · rw [hs1]; rfl
        · obtain ⟨_, hgset, hbset, hwset, _, _, _, _, _, _, _, _⟩ :=
            verdict_step_ok_facts hst
          have hpres : ∀ l1 l2 : List String,
              (l2 = l1 ∨ l2 = l1 ++ [v.target]) → t ∉ l1 → t ∉ l2 := by
            intro l1 l2 h12 hn hmem
            rcases h12 with h12 | h12
            · rw [h12] at hmem; exact hn hmem
            · rw [h12] at hmem
              rcases List.mem_append.mp hmem with hmem | hmem
              · exact hn hmem
              · exact ht (List.mem_singleton.mp hmem)
          have hdisj1 : (t ∈ psi'.good ∧ t ∉ psi1.good) ∨
              (t ∈ psi'.bad ∧ t ∉ psi1.bad) ∨
              (t ∈ psi'.wonky ∧ t ∉ psi1.wonky) := by
            rcases hdisj with ⟨hi, hn⟩ | ⟨hi, hn⟩ | ⟨hi, hn⟩
            · exact Or.inl ⟨hi, hpres psi.good psi1.good hgset hn⟩
            · exact Or.inr (Or.inl ⟨hi, hpres psi.bad psi1.bad hbset hn⟩)
            · exact Or.inr (Or.inr ⟨hi, hpres psi.wonky psi1.wonky hwset hn⟩)
          exact ih (idx + 1) psi1 rho1 (ck ++ cd1) (fk ++ fd1) h t hdisj1

/-- Every culprit of the batch whose target the loop newly judged bad has its
key collected (the loop filter cannot drop a key of the valid-key set). -/
theorem verdict_loop_culprit_complete {cs : List Culprit} {fs : List Fault}
    {kap lam : List Validator} {tau : Nat} {fp : String} :
    ∀ (vs : List Verdict) (idx : Nat) (psi : Psi)
      (rho : List (Option AvailAssignment)) (ck fk : List String)
      {psi' : Psi} {rho' : List (Option AvailAssignment)} {ck' fk' : List String},
      verdict_loop cs fs kap lam tau fp vs idx psi rho ck fk
        = Except.ok (psi', rho', ck', fk') →
      ∀ c ∈ cs, c.key ∈ valid_keys kap lam → c.target ∈ psi'.bad →
        c.target ∉ psi.bad → c.key ∈ ck' := by
  intro vs
  induction vs with
  | nil =>
    intro idx psi rho ck fk psi' rho' ck' fk' h c _ _ hin hnotin
    rw [verdict_loop] at h
    simp only [Except.ok.injEq, Prod.mk.injEq] at h
    rw [← h.1] at hin
    exact absurd hin hnotin
  | cons v rest ih =>
    intro idx psi rho ck fk psi' rho' ck' fk' h c hc hkv hin hnotin
    rw [verdict_loop] at h
    split at h
    · exact absurd h (fun hh => Except.noConfusion hh)
    next psi1 rho1 cd1 fd1 hst =>
      by_cases hcb : c.target ∈ psi1.bad
      · obtain ⟨⟨_, hb0, _⟩, _, hcases⟩ := verdict_step_ok_cases hst
        rcases hcases with ⟨hpsi1, _, _, _⟩ | ⟨_, ⟨hpsi1, _, _⟩ | ⟨hpsi1, hcd1, _⟩ | ⟨hpsi1, _, _⟩⟩
        · rw [hpsi1] at hcb; exact absurd hcb hnotin
        · rw [hpsi1] at hcb; exact absurd hcb hnotin
        · have hct : c.target = v.target := by
            rw [hpsi1] at hcb
            rcases List.mem_append.mp hcb with hcb | hcb
            · exact absurd hcb hnotin
            · exact List.mem_singleton.mp hcb
          have hmem : c.key ∈ cd1 := by
            rw [hcd1]
            exact matching_culprit_keys_complete
              (mem_verdict_culprits_for.mpr ⟨hc, hct⟩) hkv
          obtain ⟨_, _, _, _, ⟨cd2, ihck, _⟩, _, _⟩ :=
            verdict_loop_ok_master rest (idx + 1) psi1 rho1 (ck ++ cd1) (fk ++ fd1) h
          rw [ihck]
          exact List.mem_append_left _ (List.mem_append_right _ hmem)
        · rw [hpsi1] at hcb; exact absurd hcb hnotin
      · exact ih (idx + 1) psi1 rho1 (ck ++ cd1) (fk ++ fd1) h c hc hkv hin hcb

/-- Every fault of the batch whose target the loop newly judged good has its
key collected. -/
theorem verdict_loop_fault_complete {cs : List Culprit} {fs : List Fault}
    {kap lam : List Validator} {tau : Nat} {fp : String} :
    ∀ (vs : List Verdict) (idx : Nat) (psi : Psi)
      (rho : List (Option AvailAssignment)) (ck fk : List String)
      {psi' : Psi} {rho' : List (Option AvailAssignment)} {ck' fk' : List String},
      verdict_loop cs fs kap lam tau fp vs idx psi rho ck fk
        = Except.ok (psi', rho', ck', fk') →
      ∀ f ∈ fs, f.key ∈ valid_keys kap lam → f.target ∈ psi'.good →
        f.target ∉ psi.good → f.key ∈ fk' := by
  intro vs
  induction vs with
  | nil =>
    intro idx psi rho ck fk psi' rho' ck' fk' h f _ _ hin hnotin
    rw [verdict_loop] at h
    simp only [Except.ok.injEq, Prod.mk.injEq] at h
    rw [← h.1] at hin
    exact absurd hin hnotin
  | cons v rest ih =>
    intro idx psi rho ck fk psi' rho' ck' fk' h f hf hkv hin hnotin
    rw [verdict_loop] at h
    split at h
    · exact absurd h (fun hh => Except.noConfusion hh)
    next psi1 rho1 cd1 fd1 hst =>
      by_cases hfg : f.target ∈ psi1.good
      · obtain ⟨⟨hg0, _, _⟩, _, hcases⟩ := verdict_step_ok_cases hst
        rcases hcases with ⟨hpsi1, _, _, _⟩ | ⟨_, ⟨hpsi1, _, hfd1⟩ | ⟨hpsi1, _, _⟩ | ⟨hpsi1, _, _⟩⟩
        · rw [hpsi1] at hfg; exact absurd hfg hnotin
        · have hft : f.target = v.target := by
            rw [hpsi1] at hfg
            rcases List.mem_append.mp hfg with hfg | hfg
            · exact absurd hfg hnotin
            · exact List.mem_singleton.mp hfg
          have hmem : f.key ∈ fd1 := by
            rw [hfd1]
            exact matching_fault_keys_complete
              (mem_verdict_faults_for.mpr ⟨hf, hft⟩) hkv
          obtain ⟨_, _, _, _, _, ⟨fd2, ihfk, _⟩, _⟩ :=
            verdict_loop_ok_master rest (idx + 1) psi1 rho1 (ck ++ cd1) (fk ++ fd1) h
          rw [ihfk]
          exact List.mem_append_left _ (List.mem_append_right _ hmem)
        · rw [hpsi1] at hfg; exact absurd hfg hnotin
        · rw [hpsi1] at hfg; exact absurd hfg hnotin
      · exact ih (idx + 1) psi1 rho1 (ck ++ cd1) (fk ++ fd1) h f hf hkv hin hfg

/-! ### Claim theorems -/

/-- C1: atomicity of failure — whenever `process_disputes` returns an error
result, the returned post-state is exactly the pre-state; no field of psi,
rho, tau, kappa, or lambda differs. -/
theorem C1_atomicity_on_error (inp : Disputes) (pre : State) (fp : String)
    (e : ErrCode) (post : State)
    (h : process_disputes inp pre fp = (Output.err e, post)) : post = pre := by
  unfold process_disputes at h
  split_ifs at h with hemp hsort
  · simp at h
  · injection h with h1 h2; exact h2.symm
  · split at h
    · injection h with h1 h2; exact h2.symm
    · split at h
      · injection h with h1 h2; exact h2.symm
      · split at h
        · injection h with h1 h2; exact h2.symm
        · injection h with h1 h2
          exact absurd h1 (fun hh => Output.noConfusion hh)

/-- Witness for C1 at a concrete failing batch (unsorted verdict targets). -/
theorem C1_witness : (process_disputes w1Inp w1Pre "f").2 = w1Pre := by
  have h : process_disputes w1Inp w1Pre "f"
      = (Output.err ErrCode.verdicts_not_sorted_unique, w1Pre) := by decide
  have := C1_atomicity_on_error w1Inp w1Pre "f"
    ErrCode.verdicts_not_sorted_unique w1Pre h
  rw [h]

/-- C5: the empty batch (no verdicts, no culprits, no faults) is a no-op
success: result `ok []` and post-state equal to the pre-state. -/
theorem C5_empty_batch_noop (inp : Disputes) (pre : State) (fp : String)
    (hv : inp.verdicts = []) (hc : inp.culprits = []) (hf : inp.faults = []) :
    process_disputes inp pre fp = (Output.ok [], pre) := by
  unfold process_disputes
  rw [if_pos ⟨hv, hc, hf⟩]

/-- Witness for C5 at a concrete state. -/
theorem C5_witness : process_disputes ⟨[], [], []⟩ c5Pre "f" = (Output.ok [], c5Pre) :=
  C5_empty_batch_noop ⟨[], [], []⟩ c5Pre "f" rfl rfl rfl

/-- C8: partition invariant — if good, bad, wonky are pairwise disjoint in the
pre-state, they are pairwise disjoint in the post-state of every successful
call. -/
theorem C8_partition (inp : Disputes) (pre : State) (fp : String)
    (marks : List String) (post : State)
    (hd : psiDisjoint pre.psi)
    (h : process_disputes inp pre fp = (Output.ok marks, post)) :
    psiDisjoint post.psi := by
  unfold process_disputes at h
  split_ifs at h with hemp hsort
  · injection h with h1 h2; rw [← h2]; exact hd
  · injection h with h1 h2
    exact absurd h1 (fun hh => Output.noConfusion hh)
  · split at h
    · injection h with h1 h2
      exact absurd h1 (fun hh => Output.noConfusion hh)
    · split at h
      · injection h with h1 h2
        exact absurd h1 (fun hh => Output.noConfusion hh)
      · split at h
        · injection h with h1 h2
          exact absurd h1 (fun hh => Output.noConfusion hh)
        next psi1 rho1 ckk fkk hloop =>
          injection h with h1 h2
          obtain ⟨d1, d2, d3⟩ :=
            verdict_loop_disjoint inp.verdicts 0 pre.psi pre.rho [] [] hloop hd
          rw [← h2]
          refine ⟨?_, ?_, ?_⟩
          · intro x hx hx2
            exact d1 x (mem_sortedDedup.mp hx) (mem_sortedDedup.mp hx2)
          · intro x hx hx2
            exact d2 x (mem_sortedDedup.mp hx) (mem_sortedDedup.mp hx2)
          · intro x hx hx2
            exact d3 x (mem_sortedDedup.mp hx) (mem_sortedDedup.mp hx2)

/-- Witness for C8 at a concrete successful judging call. -/
theorem C8_witness : psiDisjoint c4Post.psi := by
  have h : process_disputes c4Inp c4Pre "f" = (Output.ok [], c4Post) := by decide
  exact C8_partition c4Inp c4Pre "f" [] c4Post (by decide) h

/-- C9 counterexample: the claim also asserts that the post-state offenders
sequence is sorted and deduplicated on every call, but the empty-batch
success path returns the pre-state offenders untouched, here unsorted. -/
theorem C9_counterexample :
    process_disputes ⟨[], [], []⟩ c9Pre "f" = (Output.ok [], c9Pre) ∧
    strictAsc c9Pre.psi.offenders = false := by
  constructor
  · decide
  · decide

/-- C9 (amended): the four sets only grow on every call, and the post-state
offenders sequence is sorted and deduplicated on every successful call whose
batch is non-empty (the empty-batch path and every failure path return the
pre-state offenders unchanged). -/
theorem C9_monotonic (inp : Disputes) (pre : State) (fp : String)
    (out : Output) (post : State)
    (h : process_disputes inp pre fp = (out, post)) :
    (∀ x ∈ pre.psi.good, x ∈ post.psi.good) ∧
    (∀ x ∈ pre.psi.bad, x ∈ post.psi.bad) ∧
    (∀ x ∈ pre.psi.wonky, x ∈ post.psi.wonky) ∧
    (∀ x ∈ pre.psi.offenders, x ∈ post.psi.offenders) ∧
    (∀ marks, out = Output.ok marks →
      ¬(inp.verdicts = [] ∧ inp.culprits = [] ∧ inp.faults = []) →
      strictAsc post.psi.offenders = true) := by
  unfold process_disputes at h
  split_ifs at h with hemp hsort
  · injection h with h1 h2
    rw [← h2]
    exact ⟨fun x hx => hx, fun x hx => hx, fun x hx => hx, fun x hx => hx,
      fun marks _ hne => absurd hemp hne⟩
  · injection h with h1 h2
    rw [← h2]
    refine ⟨fun x hx => hx, fun x hx => hx, fun x hx => hx, fun x hx => hx, ?_⟩
    intro marks hm _
    rw [← h1] at hm
    exact absurd hm (fun hh => Output.noConfusion hh)
  · split at h
    · injection h with h1 h2
      rw [← h2]
      refine ⟨fun x hx => hx, fun x hx => hx, fun x hx => hx, fun x hx => hx, ?_⟩
      intro marks hm _
      rw [← h1] at hm
      exact absurd hm (fun hh => Output.noConfusion hh)
    · split at h
      · injection h with h1 h2
        rw [← h2]
        refine ⟨fun x hx => hx, fun x hx => hx, fun x hx => hx, fun x hx => hx, ?_⟩
        intro marks hm _
        rw [← h1] at hm
        exact absurd hm (fun hh => Output.noConfusion hh)
      · split at h
        · injection h with h1 h2
          rw [← h2]
          refine ⟨fun x hx => hx, fun x hx => hx, fun x hx => hx, fun x hx => hx, ?_⟩
          intro marks hm _
          rw [← h1] at hm
          exact absurd hm (fun hh => Output.noConfusion hh)
        next psi1 rho1 ckk fkk hloop =>
          injection h with h1 h2
          obtain ⟨hoff, ⟨g, hg⟩, ⟨b, hb⟩, ⟨w, hw⟩, _, _, _⟩ :=
            verdict_loop_ok_master inp.verdicts 0 pre.psi pre.rho [] [] hloop
          rw [← h2]
          refine ⟨?_, ?_, ?_, ?_, ?_⟩
          · intro x hx
            exact mem_sortedDedup.mpr (hg ▸ List.mem_append_left g hx)
          · intro x hx
            exact mem_sortedDedup.mpr (hb ▸ List.mem_append_left b hx)
          · intro x hx
            exact mem_sortedDedup.mpr (hw ▸ List.mem_append_left w hx)
          · intro x hx
            exact mem_sortedDedup.mpr
              (List.mem_append_left _ (hoff ▸ hx))
          · intro marks _ _
            exact strictAsc_sortedDedup _

/-- Witness for C9 at a concrete successful non-empty call with unsorted
pre-state offenders: they come back sorted, and old members survive. -/
theorem C9_witness :
    strictAsc c9wPost.psi.offenders = true ∧ "a" ∈ c9wPost.psi.offenders := by
  have h : process_disputes c9wInp c9wPre "f" = (Output.ok [], c9wPost) := by decide
  have hm := C9_monotonic c9wInp c9wPre "f" (Output.ok []) c9wPost h
  exact ⟨hm.2.2.2.2 [] rfl (by decide), hm.2.2.2.1 "a" (by decide)⟩

/-- C3 counterexample: a successful batch (bad verdict with culprits `x`, `y`,
then good verdict with fault `a`) returns `offenders_mark = ["x", "y", "a"]`,
which is not strictly ascending — the result sequence is the raw
concatenation `culprit_keys + fault_keys`, not sorted or deduplicated. -/
theorem C3_counterexample :
    (process_disputes c3Inp c3Pre "f").1 = Output.ok ["x", "y", "a"] ∧
    strictAsc ["x", "y", "a"] = false := by
  constructor
  · decide
  · decide

/-- C3 (amended): on every successful call the offenders_mark sequence
contains exactly this batch's newly identified offender keys — the culprit
keys of verdicts judged bad followed by the fault keys of verdicts judged
good, each absent from the pre-state offenders — and not the cumulative
offenders set; the sequence is however not sorted or deduplicated. -/
theorem C3_offender_marks (inp : Disputes) (pre : State) (fp : String)
    (marks : List String) (post : State)
    (h : process_disputes inp pre fp = (Output.ok marks, post)) :
    (∀ k ∈ marks, k ∉ pre.psi.offenders) ∧
    (∀ k ∈ marks,
      (∃ c ∈ inp.culprits, c.key = k ∧ c.target ∈ post.psi.bad ∧
        c.target ∉ pre.psi.bad) ∨
      (∃ f ∈ inp.faults, f.key = k ∧ f.target ∈ post.psi.good ∧
        f.target ∉ pre.psi.good)) ∧
    (∀ c ∈ inp.culprits, c.target ∈ post.psi.bad → c.target ∉ pre.psi.bad →
      c.key ∈ marks) ∧
    (∀ f ∈ inp.faults, f.target ∈ post.psi.good → f.target ∉ pre.psi.good →
      f.key ∈ marks) := by
  unfold process_disputes at h
  split_ifs at h with hemp hsort
  · obtain ⟨hv, hc, hf⟩ := hemp
    injection h with h1 h2
    injection h1 with h1
    rw [← h1]
    refine ⟨fun k hk => absurd hk (List.not_mem_nil k),
      fun k hk => absurd hk (List.not_mem_nil k), ?_, ?_⟩
    · intro c hcm
      rw [hc] at hcm
      exact absurd hcm (List.not_mem_nil c)
    · intro f hfm
      rw [hf] at hfm
      exact absurd hfm (List.not_mem_nil f)
  · injection h with h1 h2
    exact absurd h1 (fun hh => Output.noConfusion hh)
  · split at h
    · injection h with h1 h2
      exact absurd h1 (fun hh => Output.noConfusion hh)
    next hcul =>
      split at h
      · injection h with h1 h2
        exact absurd h1 (fun hh => Output.noConfusion hh)
      next hfau =>
        split at h
        · injection h with h1 h2
          exact absurd h1 (fun hh => Output.noConfusion hh)
        next psi1 rho1 ckk fkk hloop =>
          injection h with h1 h2
          injection h1 with h1
          obtain ⟨hoff, _, _, _, ⟨cd, hck, hcd⟩, ⟨fd, hfk, hfd⟩, _⟩ :=
            verdict_loop_ok_master inp.verdicts 0 pre.psi pre.rho [] [] hloop
          rw [List.nil_append] at hck hfk
          obtain ⟨_, hvalc⟩ := validate_culprits_none hcul
          obtain ⟨_, hvalf⟩ := validate_faults_none hfau
          rw [← h1, hck, hfk]
          refine ⟨?_, ?_, ?_, ?_⟩
          · intro k hk
            rcases List.mem_append.mp hk with hk | hk
            · obtain ⟨c, hcm, hkey, _, _⟩ := hcd k hk
              rw [← hkey]
              exact (hvalc c hcm).1
            · obtain ⟨f, hfm, hkey, _, _⟩ := hfd k hk
              rw [← hkey]
              exact (hvalf f hfm).1
          · intro k hk
            rcases List.mem_append.mp hk with hk | hk
            · obtain ⟨c, hcm, hkey, hin, hnin⟩ := hcd k hk
              exact Or.inl ⟨c, hcm, hkey, by
                rw [← h2]; exact mem_sortedDedup.mpr hin, hnin⟩
            · obtain ⟨f, hfm, hkey, hin, hnin⟩ := hfd k hk
              exact Or.inr ⟨f, hfm, hkey, by
                rw [← h2]; exact mem_sortedDedup.mpr hin, hnin⟩
          · intro c hcm hin hnin
            rw [← h2] at hin
            have hkv := (hvalc c hcm).2.1
            have := verdict_loop_culprit_complete inp.verdicts 0 pre.psi pre.rho
              [] [] hloop c hcm hkv (mem_sortedDedup.mp hin) hnin
            rw [hck] at this
            exact List.mem_append_left _ this
          · intro f hfm hin hnin
            rw [← h2] at hin
            have hkv := (hvalf f hfm).2.1
            have := verdict_loop_fault_complete inp.verdicts 0 pre.psi pre.rho
              [] [] hloop f hfm hkv (mem_sortedDedup.mp hin) hnin
            rw [hfk] at this
            exact List.mem_append_right _ this

/-- Witness for the amended C3 at the concrete two-verdict batch. -/
theorem C3_witness :
    "x" ∉ c3Pre.psi.offenders ∧ "t1" ∈ c3Post.psi.bad ∧
    (∀ k ∈ ["x", "y", "a"], k ∉ c3Pre.psi.offenders) := by
  have h : process_disputes c3Inp c3Pre "f" = (Output.ok ["x", "y", "a"], c3Post) := by
    decide
  have hm := C3_offender_marks c3Inp c3Pre "f" ["x", "y", "a"] c3Post h
  exact ⟨hm.1 "x" (by decide), by decide, hm.1⟩

/-- C4 counterexample: with the special-cased file path, judging the first
verdict clears only slot 0, so a matching slot elsewhere survives — the
clearing is not independent of the file path. -/
theorem C4_counterexample :
    (process_disputes c4Inp c4Pre c4Fp) = (Output.ok [], c4PostMagic) ∧
    "t1" ∈ c4PostMagic.psi.wonky ∧
    rho_cleared_of c4PostMagic.rho "t1" = false := by
  refine ⟨by decide, by decide, by decide⟩

/-- C4 (amended): for every file path not containing
`progress_invalidates_avail_assignments-1.json`, after a successful call
every rho slot referencing a target judged in this batch (it is in a
post-state judgement set but in no pre-state one) is cleared. -/
theorem C4_availability_clearing (inp : Disputes) (pre : State) (fp : String)
    (marks : List String) (post : State) (t : String)
    (hfp : strContains fp "progress_invalidates_avail_assignments-1.json" = false)
    (h : process_disputes inp pre fp = (Output.ok marks, post))
    (hjud : t ∈ post.psi.good ∨ t ∈ post.psi.bad ∨ t ∈ post.psi.wonky)
    (hnew : t ∉ pre.psi.good ∧ t ∉ pre.psi.bad ∧ t ∉ pre.psi.wonky) :
    rho_cleared_of post.rho t = true := by
  unfold process_disputes at h
  split_ifs at h with hemp hsort
  · injection h with h1 h2
    rw [← h2] at hjud
    rcases hjud with hj | hj | hj
    · exact absurd hj hnew.1
    · exact absurd hj hnew.2.1
    · exact absurd hj hnew.2.2
  · injection h with h1 h2
    exact absurd h1 (fun hh => Output.noConfusion hh)
  · split at h
    · injection h with h1 h2
      exact absurd h1 (fun hh => Output.noConfusion hh)
    · split at h
      · injection h with h1 h2
        exact absurd h1 (fun hh => Output.noConfusion hh)
      · split at h
        · injection h with h1 h2
          exact absurd h1 (fun hh => Output.noConfusion hh)
        next psi1 rho1 ckk fkk hloop =>
          injection h with h1 h2
          have hdisj : (t ∈ psi1.good ∧ t ∉ pre.psi.good) ∨
              (t ∈ psi1.bad ∧ t ∉ pre.psi.bad) ∨
              (t ∈ psi1.wonky ∧ t ∉ pre.psi.wonky) := by
            rw [← h2] at hjud
            rcases hjud with hj | hj | hj
            · exact Or.inl ⟨mem_sortedDedup.mp hj, hnew.1⟩
            · exact Or.inr (Or.inl ⟨mem_sortedDedup.mp hj, hnew.2.1⟩)
            · exact Or.inr (Or.inr ⟨mem_sortedDedup.mp hj, hnew.2.2⟩)
          have hcl := verdict_loop_clears hfp inp.verdicts 0 pre.psi pre.rho
            [] [] hloop t hdisj
          rw [← h2]
          rw [rho_cleared_of, List.all_eq_true]
          intro s hs
          rw [hcl s hs]
          rfl

/-- Witness for the amended C4: the same batch on an ordinary file path has
both matching slots cleared. -/
theorem C4_witness : rho_cleared_of c4Post.rho "t1" = true := by
  have h : process_disputes c4Inp c4Pre "f" = (Output.ok [], c4Post) := by decide
  exact C4_availability_clearing c4Inp c4Pre "f" [] c4Post "t1"
    (by decide) h (by decide) (by decide)

/-- C2 counterexample: a verdict with six valid votes and exactly one
positive vote satisfies none of the three claimed bands and is silently left
unjudged — the batch succeeds and the target lands in no judgement set. -/
theorem C2_counterexample :
    (process_disputes ⟨[c2V], [], []⟩ c2Pre "f").1 = Output.ok [] ∧
    "t1" ∉ (process_disputes ⟨[c2V], [], []⟩ c2Pre "f").2.psi.good ∧
    "t1" ∉ (process_disputes ⟨[c2V], [], []⟩ c2Pre "f").2.psi.bad ∧
    "t1" ∉ (process_disputes ⟨[c2V], [], []⟩ c2Pre "f").2.psi.wonky ∧
    positive_count c2V.votes = 1 ∧ c2V.votes.length = 6 ∧
    validate_votes c2V.votes c2K [] c2V.age 0 "f" = none ∧
    ¬(positive_count c2V.votes ≥ two_thirds_of c2V.votes.length ∨
      positive_count c2V.votes = 0 ∨
      (one_third_of c2V.votes.length ≤ positive_count c2V.votes ∧
       positive_count c2V.votes < two_thirds_of c2V.votes.length)) := by
  decide

/-- C2 (amended): the classification bands are exhaustive only together with
a fourth, silent band: every vote count satisfies one of the three claimed
bands or `0 < positive < oneThird`, and in the latter case the verdict step
leaves psi and rho untouched, collects no keys, and raises no error. -/
theorem C2_classification_bands (v : Verdict) (idx : Nat) (cs : List Culprit)
    (fs : List Fault) (psi : Psi) (rho : List (Option AvailAssignment))
    (kap lam : List Validator) (tau : Nat) (fp : String)
    (hnj : ¬(v.target ∈ psi.good ∨ v.target ∈ psi.bad ∨ v.target ∈ psi.wonky))
    (hvv : validate_votes v.votes kap lam v.age tau fp = none) :
    (positive_count v.votes ≥ two_thirds_of v.votes.length ∨
     positive_count v.votes = 0 ∨
     (one_third_of v.votes.length ≤ positive_count v.votes ∧
      positive_count v.votes < two_thirds_of v.votes.length) ∨
     (0 < positive_count v.votes ∧
      positive_count v.votes < one_third_of v.votes.length)) ∧
    (0 < positive_count v.votes → positive_count v.votes < one_third_of v.votes.length →
      verdict_step v idx cs fs psi rho kap lam tau fp = Except.ok (psi, rho, [], [])) := by
  constructor
  · unfold two_thirds_of one_third_of
    omega
  · intro hp1 hp2
    unfold one_third_of at hp2
    have h1 : ¬(positive_count v.votes ≥ two_thirds_of v.votes.length) := by
      unfold two_thirds_of
      omega
    have h2 : ¬(positive_count v.votes = 0) := by omega
    have h3 : ¬(one_third_of v.votes.length ≤ positive_count v.votes ∧
        positive_count v.votes < two_thirds_of v.votes.length) := by
      unfold one_third_of two_thirds_of
      omega
    have hcl : classify v cs fs psi (valid_keys kap lam)
        = Except.ok (psi, [], [], false) := by
      unfold classify
      rw [if_neg h1, if_neg h2, if_neg h3]
    unfold verdict_step
    rw [if_neg hnj, hvv, hcl]
    dsimp only
    rw [apply_rho_not_judged]

/-- Witness for the amended C2 at the concrete six-vote verdict. -/
theorem C2_witness :
    verdict_step c2V 0 [] [] ⟨[], [], [], []⟩ [] c2K [] 0 "f"
      = Except.ok (⟨[], [], [], []⟩, [], [], []) :=
  (C2_classification_bands c2V 0 [] [] ⟨[], [], [], []⟩ [] c2K [] 0 "f"
    (by decide) (by decide)).2 (by decide) (by decide)

/-- C6 counterexample: with sorted verdict targets and sorted culprit keys
but unsorted fault keys, a culprit that is already an offender makes the call
return `offender_already_reported`, not `faults_not_sorted_unique` — culprit
semantic checks run before the fault structural check. -/
theorem C6_counterexample :
    strictAsc (c6Inp.verdicts.map (fun v => v.target)) = true ∧
    strictAsc (c6Inp.culprits.map (fun c => c.key)) = true ∧
    strictAsc (c6Inp.faults.map (fun f => f.key)) = false ∧
    process_disputes c6Inp c6Pre "f"
      = (Output.err ErrCode.offender_already_reported, c6Pre) ∧
    (process_disputes c6Inp c6Pre "f").1 ≠ Output.err ErrCode.faults_not_sorted_unique := by
  decide

/-- C6 (amended): the fault structural check fires first only once all
culprit checks (structural and semantic) have passed — for every non-empty
batch with sorted-unique verdict targets, fully valid culprits, and fault
keys not strictly ascending and unique, the call returns
`faults_not_sorted_unique`. -/
theorem C6_fault_order_check (inp : Disputes) (pre : State) (fp : String)
    (hv : strictAsc (inp.verdicts.map (fun v => v.target)) = true)
    (hc : validate_culprits inp.culprits pre.kappa pre.lambda_ pre.psi
        (inp.verdicts.map (fun v => v.target)) fp = none)
    (hf : strictAsc (inp.faults.map (fun f => f.key)) = false) :
    process_disputes inp pre fp
      = (Output.err ErrCode.faults_not_sorted_unique, pre) := by
  have hfe : ¬(inp.verdicts = [] ∧ inp.culprits = [] ∧ inp.faults = []) := by
    intro hemp
    rw [hemp.2.2] at hf
    simp [strictAsc] at hf
  have hvf : validate_faults inp.faults pre.kappa pre.lambda_ pre.psi
      (inp.verdicts.map (fun v => v.target)) fp
      = some ErrCode.faults_not_sorted_unique := by
    unfold validate_faults
    rw [if_pos hf]
  unfold process_disputes
  rw [if_neg hfe, if_neg (by rw [hv]; simp), hc, hvf]

/-- Witness for the amended C6: empty verdicts and culprits, unsorted faults. -/
theorem C6_witness :
    process_disputes c6wInp c6wPre "f"
      = (Output.err ErrCode.faults_not_sorted_unique, c6wPre) :=
  C6_fault_order_check c6wInp c6wPre "f" (by decide) (by decide) (by decide)

/-- C7: threshold arithmetic at `total = 3` — `oneThird = 1`, `twoThirds = 3`;
with one positive vote the step (and hence a batch led by this verdict) fails
with `bad_vote_split`; with two positive votes and no culprits or faults
targeting the report, the verdict is classified wonky. -/
theorem C7_threshold_boundary (v : Verdict) (idx : Nat) (cs : List Culprit)
    (fs : List Fault) (psi : Psi) (rho : List (Option AvailAssignment))
    (kap lam : List Validator) (tau : Nat) (fp : String)
    (hlen : v.votes.length = 3)
    (hnj : ¬(v.target ∈ psi.good ∨ v.target ∈ psi.bad ∨ v.target ∈ psi.wonky))
    (hvv : validate_votes v.votes kap lam v.age tau fp = none) :
    (one_third_of v.votes.length = 1 ∧ two_thirds_of v.votes.length = 3) ∧
    (positive_count v.votes = 1 →
      verdict_step v idx cs fs psi rho kap lam tau fp
        = Except.error ErrCode.bad_vote_split) ∧
    (positive_count v.votes = 2 → verdict_culprits_for cs v.target = [] →
      verdict_faults_for fs v.target = [] →
      verdict_step v idx cs fs psi rho kap lam tau fp =
        Except.ok ({ psi with wonky := psi.wonky ++ [v.target] },
          apply_rho rho v.target idx fp true, [], [])) ∧
    (positive_count v.votes = 1 →
      ∀ inp : Disputes, inp.verdicts = [v] → inp.culprits = cs → inp.faults = fs →
      ∀ pre : State, pre.psi = psi → pre.rho = rho → pre.kappa = kap →
        pre.lambda_ = lam → pre.tau = tau →
      validate_culprits cs kap lam psi [v.target] fp = none →
      validate_faults fs kap lam psi [v.target] fp = none →
      process_disputes inp pre fp = (Output.err ErrCode.bad_vote_split, pre)) := by
  have harith : one_third_of v.votes.length = 1 ∧ two_thirds_of v.votes.length = 3 := by
    unfold one_third_of two_thirds_of
    rw [hlen]
    exact ⟨rfl, rfl⟩
  have hstep : ∀ i : Nat, positive_count v.votes = 1 →
      verdict_step v i cs fs psi rho kap lam tau fp
        = Except.error ErrCode.bad_vote_split := by
    intro i hp
    have hcl : classify v cs fs psi (valid_keys kap lam)
        = Except.error ErrCode.bad_vote_split := by
      unfold classify
      rw [if_neg (by rw [hp, harith.2]; omega),
        if_neg (by rw [hp]; omega),
        if_pos (by rw [hp, harith.1, harith.2]; omega),
        if_pos (by rw [hp, harith.1])]
    unfold verdict_step
    rw [if_neg hnj, hvv, hcl]
  refine ⟨harith, hstep idx, ?_, ?_⟩
  · intro hp hc0 hf0
    have hcl : classify v cs fs psi (valid_keys kap lam)
        = Except.ok ({ psi with wonky := psi.wonky ++ [v.target] }, [], [], true) := by
      unfold classify
      rw [if_neg (by rw [hp, harith.2]; omega),
        if_neg (by rw [hp]; omega),
        if_pos (by rw [hp, harith.1, harith.2]; omega),
        if_neg (by rw [hp, harith.1]; omega),
        if_neg (by rw [hc0, hf0]; simp)]
    unfold verdict_step
    rw [if_neg hnj, hvv, hcl]
  · intro hp inp hverd hculs hfaus pre hpsi hrho hkap hlam htau hvc hvf
    subst hpsi; subst hrho; subst hkap; subst hlam; subst htau
    unfold process_disputes
    rw [if_neg (by
      intro hemp
      rw [hverd] at hemp
      exact List.noConfusion hemp.1)]
    rw [hverd, hculs, hfaus]
    have hmap : [v].map (fun x => x.target) = [v.target] := rfl
    rw [hmap, if_neg (by simp [strictAsc]), hvc, hvf]
    rw [verdict_loop, hstep 0 hp]

/-- Witness for C7 at the concrete three-vote verdict with one positive vote. -/
theorem C7_witness :
    verdict_step c7V 0 [] [] c7Psi [] c3K [] 0 "f"
      = Except.error ErrCode.bad_vote_split ∧
    process_disputes ⟨[c7V], [], []⟩ c7Pre "f"
      = (Output.err ErrCode.bad_vote_split, c7Pre) := by
  have hm := C7_threshold_boundary c7V 0 [] [] c7Psi [] c3K [] 0 "f"
    (by decide) (by decide) (by decide)
  exact ⟨hm.2.1 (by decide),
    hm.2.2.2 (by decide) ⟨[c7V], [], []⟩ rfl rfl rfl c7Pre rfl rfl rfl rfl rfl
      (by decide) (by decide)⟩

/-- Offenders only grow through the reference variant's key loop. -/
theorem ref_add_keys_off_mono :
    ∀ (keys : List String) (psi : Psi) (marks : List String),
      ∀ x ∈ psi.offenders, x ∈ (RefCase.ref_add_keys keys psi marks).1.offenders := by
  intro keys
  induction keys with
  | nil => intro psi marks x hx; exact hx
  | cons k rest ih =>
    intro psi marks x hx
    rw [RefCase.ref_add_keys]
    split_ifs with hk
    · exact ih psi marks x hx
    · exact ih _ _ x (List.mem_append_left _ hx)

/-- Every key handed to the reference variant's key loop ends up an offender. -/
theorem ref_add_keys_adds :
    ∀ (keys : List String) (psi : Psi) (marks : List String),
      ∀ k ∈ keys, k ∈ (RefCase.ref_add_keys keys psi marks).1.offenders := by
  intro keys
  induction keys with
  | nil => intro psi marks k hk; exact absurd hk (List.not_mem_nil k)
  | cons k0 rest ih =>
    intro psi marks k hk
    rw [RefCase.ref_add_keys]
    rcases List.mem_cons.mp hk with hk | hk
    · subst hk
      split_ifs with hk0
      · exact ref_add_keys_off_mono rest psi marks k hk0
      · exact ref_add_keys_off_mono rest _ _ k
          (List.mem_append_right _ (List.mem_singleton.mpr rfl))
    · split_ifs with hk0
      · exact ih psi marks k hk
      · exact ih _ _ k hk

/-- The reference variant's verdict loop never touches offenders. -/
theorem ref_loop_offenders :
    ∀ (vs : List Verdict) (psi : Psi) (rho : List (Option AvailAssignment)),
      (RefCase.ref_verdict_loop vs psi rho).1.offenders = psi.offenders := by
  intro vs
  induction vs with
  | nil => intro psi rho; rfl
  | cons v rest ih =>
    intro psi rho
    rw [RefCase.ref_verdict_loop]
    split_ifs with h1 h2 h3 h4 <;> exact ih _ _

/-- C10: the simpler reference variant never rejects — the result is always a
success carrying some offender-mark sequence — and every culprit and fault
key of the batch is in the post-state offenders, whether or not any verdict
referencing its target was classified. -/
theorem C10_ref_variant_total (inp : Disputes) (pre : State) :
    (∃ marks, (RefCase.process_disputes inp pre).1 = Output.ok marks) ∧
    (∀ c ∈ inp.culprits, c.key ∈ (RefCase.process_disputes inp pre).2.psi.offenders) ∧
    (∀ f ∈ inp.faults, f.key ∈ (RefCase.process_disputes inp pre).2.psi.offenders) := by
  refine ⟨⟨_, rfl⟩, ?_, ?_⟩
  · intro c hc
    apply mem_sortedDedup.mpr
    apply ref_add_keys_off_mono
    exact ref_add_keys_adds _ _ _ c.key (List.mem_map.mpr ⟨c, hc, rfl⟩)
  · intro f hf
    apply mem_sortedDedup.mpr
    exact ref_add_keys_adds _ _ _ f.key (List.mem_map.mpr ⟨f, hf, rfl⟩)

/-- Witness for C10 at a concrete batch with one culprit and one fault. -/
theorem C10_witness :
    (RefCase.process_disputes c10Inp c10Pre).1 = Output.ok ["cx", "fy"] ∧
    "cx" ∈ (RefCase.process_disputes c10Inp c10Pre).2.psi.offenders ∧
    "fy" ∈ (RefCase.process_disputes c10Inp c10Pre).2.psi.offenders :=
  ⟨by decide,
   (C10_ref_variant_total c10Inp c10Pre).2.1 ⟨"cx", "t9", "s"⟩ (by decide),
   (C10_ref_variant_total c10Inp c10Pre).2.2 ⟨"fy", "t9", false, "s"⟩ (by decide)⟩

end Jam
